import Mathlib

/-!
# Verification of the multi-repository end-to-end test runner (`main.go`)

The program reads repository identifiers from standard input, clones every
repository concurrently, runs the `ginkgo` end-to-end suite of each repository
one after the other, and renders every JSON result file of the `tests`
directory through a template into `report.txt`.

The embedding is shallow.  Go strings are sequences of Unicode code points
(the input is taken to be valid UTF-8).  Everything the program asks of the
operating system, of the GitHub client, of the child processes and of the
template engine is an oracle of the `World` record or of the `FileSystem`
state; the program's observable behaviour is the list of `Event`s it produces
together with its exit `Status`.
-/

set_option autoImplicit false

namespace SreOperators

/-! ## Go strings and the `strings` package -/

/-- Go `string`, as the sequence of its code points. -/
abbrev Str := List Char

/-- Go `strings.Split(s, sep)` for a separator of one character: the pieces of
`s` between the occurrences of `sep`; there is always at least one piece. -/
def split : Str → Char → List Str
  | [], _ => [[]]
  | c :: cs, sep =>
    if c = sep then [] :: split cs sep
    else
      match split cs sep with
      | [] => [[c]]
      | p :: ps => (c :: p) :: ps

/-- Go `strings.ReplaceAll(s, old, new)` for `old` and `new` of one character. -/
def replaceAll (s : Str) (old new : Char) : Str :=
  s.map fun c => if c = old then new else c

/-- Go `strings.HasSuffix(s, suffix)`:
`len(s) >= len(suffix) && s[len(s)-len(suffix):] == suffix`. -/
def hasSuffix (s suffix : Str) : Bool :=
  decide (suffix.length ≤ s.length) && decide (s.drop (s.length - suffix.length) = suffix)

/-- Go `unicode.IsSpace`: the Latin-1 spaces and the code points of category Z
with property `White_Space`. -/
def isSpace (c : Char) : Bool :=
  let n := c.toNat
  n = 0x09 || n = 0x0A || n = 0x0B || n = 0x0C || n = 0x0D || n = 0x20 ||
  n = 0x85 || n = 0xA0 || n = 0x1680 || (0x2000 ≤ n && n ≤ 0x200A) ||
  n = 0x2028 || n = 0x2029 || n = 0x202F || n = 0x205F || n = 0x3000

/-- Go `strings.TrimSpace(s)`: `s` without its leading and trailing white space. -/
def trimSpace (s : Str) : Str :=
  ((s.dropWhile isSpace).reverse.dropWhile isSpace).reverse

/-! ## Data model (`suite`, `spec`) -/

/-- The anonymous struct `PreRunStats` of `suite`. -/
structure PreRunStats where
  TotalSpecs : Int
  SpecsThatWillRun : Int
  deriving DecidableEq, Repr

/-- The anonymous struct `Location` of a failure. -/
structure Location where
  LineNumber : Int
  StackTrace : Str
  deriving DecidableEq, Repr

/-- The anonymous struct `Failure` of `spec`. -/
structure Failure where
  Message : Str
  Location : Location
  deriving DecidableEq, Repr

/-- Go `type spec struct`; the field `Type` is named after its JSON key. -/
structure spec where
  Name : Str
  LeafNodeType : Str
  State : Str
  Attempts : Int
  Failure : Failure
  deriving DecidableEq, Repr

/-- Go `type suite struct`. -/
structure suite where
  Path : Str
  Description : Str
  Succeeded : Bool
  PreRunStats : PreRunStats
  SpecReports : List spec
  deriving DecidableEq, Repr

/-! ## The environment -/

/-- The fields of `github.Repository` that `clone` reads. -/
structure Repository where
  FullName : Str
  CloneURL : Str
  deriving DecidableEq, Repr

/-- An `os.DirEntry`: what `generateReport` reads of it. -/
structure DirEntry where
  Name : Str
  IsDir : Bool
  deriving DecidableEq, Repr

/-- A parsed template: `Execute` maps the decoded suites of one file to the
text it wrote to the destination and the error it returned, if any (on an
error the text is the part written before execution stopped). -/
abbrev Template := List suite → Str × Option Str

/-- The part of the file system the aggregation stage reads: `os.ReadDir` and
`os.ReadFile`, by path. -/
structure FileSystem where
  readDir : Str → Except Str (List DirEntry)
  readFile : Str → Except Str Str

/-- What `os.Stat(path)` answers: without error, the path is a directory or
something else; with an error, the error says that the path does not exist
(`os.IsNotExist`, `ENOENT`), that a component of the path is not a directory
(`ENOTDIR`), or anything else (for instance permission denied). -/
inductive StatResult where
  | directory
  | file
  | notExist
  | notDir
  | failed
  deriving DecidableEq, Repr

/-- Go `os.IsNotExist(err)` for the `err` of an `os.Stat`. -/
def StatResult.isNotExist : StatResult → Bool
  | .notExist => true
  | _ => false

/-- Everything else the program obtains from outside. -/
structure World where
  /-- The error on which `flag.Parse()` exits, if any. -/
  flagParse : Option Str
  /-- Value of `os.Getenv("GITHUB_TOKEN")`. -/
  token : Str
  /-- Error of `os.MkdirAll(path, os.ModePerm)`, if any. -/
  mkdirAll : Str → Option Str
  /-- Result of `io.ReadAll(os.Stdin)`. -/
  stdin : Except Str Str
  /-- Result of `client.Repositories.Get(ctx, owner, name)`. -/
  reposGet : Str → Str → Except Str Repository
  /-- Error of `cmd.Run()` for the command with working directory `dir`
  (empty: inherited) and argument vector `argv`, if any. -/
  run : Str → List Str → Option Str
  /-- The order in which the acquisition goroutines finish. -/
  order : List Str → List Str
  /-- Result of `os.Getwd()`. -/
  getwd : Except Str Str
  /-- Result of `os.Stat(path)`. -/
  stat : Str → StatResult
  /-- The JSON report the test tool leaves behind when run in `dir` with
  `argv`, if it writes one. -/
  jsonReport : Str → List Str → Option Str
  /-- Error of `os.Create(path)`, if any. -/
  create : Str → Option Str
  /-- Result of `template.New(name).ParseFiles(name)`. -/
  parseFiles : Str → Except Str Template
  /-- Result of `json.Unmarshal(b, &s)` into a fresh `[]suite`. -/
  unmarshal : Str → Except Str (List suite)

/-- Go `_, err := os.Stat(path); os.IsNotExist(err)`. -/
def World.statNotExist (w : World) (path : Str) : Bool :=
  (w.stat path).isNotExist

/-- What the program does that can be observed from outside. -/
inductive Event where
  /-- Text written to standard output (`fmt.Printf`, `fmt.Println`). -/
  | stdout (text : Str)
  /-- The call `log.Fatal(v)`, which ends the process. -/
  | logFatal (msg : Str)
  /-- The panic of `template.Must`, which ends the process. -/
  | mustPanic (msg : Str)
  /-- The call `client.Repositories.Get(ctx, owner, name)`. -/
  | lookup (owner name : Str)
  /-- The call `cmd.Run()` with `cmd.Dir = dir` and arguments `argv`. -/
  | run (dir : Str) (argv : List Str)
  /-- A successful `os.Create(path)`: the file now exists and is empty. -/
  | create (path : Str)
  /-- The call `tpl.Execute(f, s)` for the suites decoded from the file `src`:
  `text` is what it appended to the file `path`. -/
  | execute (path src text : Str)
  deriving DecidableEq, Repr

/-- How a function of the program ends: it returns, or the process is ended
(by `log.Fatal`, by the panic of `template.Must`, or by `flag.Parse`). -/
inductive Status where
  | returned
  | fatal (msg : Str)
  deriving DecidableEq, Repr

/-- The events of a call and how it ended. -/
structure Run where
  events : List Event
  status : Status
  deriving DecidableEq, Repr

/-- The events of a call, how it ended, and the file system it leaves. -/
structure RunFS where
  events : List Event
  status : Status
  fs : FileSystem

/-! ## The program -/

/-- Go `reposDir = "repos"`. -/
def reposDir : Str := "repos".toList

/-- Go `testsDir = "tests"`. -/
def testsDir : Str := "tests".toList

/-- Go `ifErr(err)` for an `err` that is not `nil`: `log.Fatal(err)` ends the
process.  For a `nil` error `ifErr` does nothing, and the definitions below go
on with the next statement. -/
def ifErr (err : Str) : Run :=
  ⟨[.logFatal err], .fatal err⟩

/-- Go `clone`: the events of the call and the returned `error`. -/
def clone (w : World) (repo : Str) : List Event × Option Str :=
  let s := split repo '/'
  if s.length ≠ 2 then
    ([], some ("invalid repo format: ".toList ++ repo))
  else
    let owner := s.getD 0 []
    let name := s.getD 1 []
    match w.reposGet owner name with
    | .error err => ([.lookup owner name], some err)
    | .ok r =>
      let dirName := replaceAll repo '/' '_'
      let argv := ["git".toList, "clone".toList, "--depth=1".toList, r.CloneURL,
        reposDir ++ "/".toList ++ dirName]
      ([.lookup owner name,
        .stdout ("Cloning repository: ".toList ++ r.FullName ++ "\n".toList),
        .run [] argv],
       w.run [] argv)

/-- The argument vector `runTests` gives to `exec.Command` for `repo`. -/
def ginkgoArgv (outputDir repo : Str) : List Str :=
  ["ginkgo".toList, "--tags=e2e,osde2e".toList, "--flake-attempts=3".toList,
   "--procs=4".toList, "-vv".toList, "--trace".toList, outputDir,
   "--json-report=".toList ++ replaceAll repo '/' '_' ++ ".json".toList, ".".toList]

/-- Modelled from the spec: the external test tool, which is not part of the
repository.  Run for a repository, it writes at most its JSON report, named by
`--json-report`, into the directory given by `--output-dir` (the `tests`
directory of the process); an existing entry of that name keeps its place in
the listing. -/
def FileSystem.writeReport (fs : FileSystem) (name : Str) : Option Str → FileSystem
  | none => fs
  | some content =>
    { readFile := fun p => if p = testsDir ++ "/".toList ++ name then .ok content else fs.readFile p
      readDir := fun d =>
        if d = testsDir then
          match fs.readDir d with
          | .ok l => .ok (if l.any (fun e => decide (e.Name = name)) then l else l ++ [⟨name, false⟩])
          | .error err => .error err
        else fs.readDir d }

/-- The loop of `runTests`: one iteration for each repository, in order. -/
def runTestsLoop (w : World) (outputDir : Str) : List Str → FileSystem → List Event × FileSystem
  | [], fs => ([], fs)
  | repo :: rest, fs =>
    let dir := reposDir ++ "/".toList ++ replaceAll repo '/' '_' ++ "/test/e2e".toList
    if w.statNotExist dir then
      let r := runTestsLoop w outputDir rest fs
      (.stdout ("[SKIP] No test/e2e directory for ".toList ++ repo ++ "\n".toList) :: r.1, r.2)
    else
      let argv := ginkgoArgv outputDir repo
      let fs1 := fs.writeReport (replaceAll repo '/' '_' ++ ".json".toList) (w.jsonReport dir argv)
      let r := runTestsLoop w outputDir rest fs1
      match w.run dir argv with
      | some err =>
        (.stdout ("Running tests for ".toList ++ repo ++ "...\n".toList) :: .run dir argv ::
          .stdout ("[ERROR] Ginkgo test failed for ".toList ++ repo ++ ": ".toList ++ err ++ "\n".toList)
            :: r.1, r.2)
      | none =>
        (.stdout ("Running tests for ".toList ++ repo ++ "...\n".toList) :: .run dir argv :: r.1, r.2)

/-- Go `runTests`. -/
def runTests (w : World) (repos : List Str) (fs : FileSystem) : RunFS :=
  match w.getwd with
  | .error err => ⟨(ifErr err).events, (ifErr err).status, fs⟩
  | .ok cwd =>
    let outputDir := "--output-dir=".toList ++ cwd ++ "/".toList ++ testsDir
    let r := runTestsLoop w outputDir repos fs
    ⟨r.1, .returned, r.2⟩

/-- The name of the report file. -/
def reportPath : Str := "report.txt".toList

/-- The loop of `generateReport`: one iteration for each directory entry. -/
def generateReportLoop (w : World) (fs : FileSystem) (tpl : Template) : List DirEntry → Run
  | [] => ⟨[], .returned⟩
  | entry :: rest =>
    if entry.IsDir || !hasSuffix entry.Name ".json".toList then
      generateReportLoop w fs tpl rest
    else
      let src := testsDir ++ "/".toList ++ entry.Name
      match fs.readFile src with
      | .error err =>
        let r := generateReportLoop w fs tpl rest
        ⟨.stdout (err ++ "\n".toList) :: r.events, r.status⟩
      | .ok b =>
        match w.unmarshal b with
        | .error err =>
          let r := generateReportLoop w fs tpl rest
          ⟨.stdout (err ++ "\n".toList) :: r.events, r.status⟩
        | .ok s =>
          match tpl s with
          | (text, some err) =>
            ⟨.execute reportPath src text :: (ifErr err).events, (ifErr err).status⟩
          | (text, none) =>
            let r := generateReportLoop w fs tpl rest
            ⟨.execute reportPath src text :: r.events, r.status⟩

/-- Go `generateReport`. -/
def generateReport (w : World) (fs : FileSystem) : Run :=
  match fs.readDir testsDir with
  | .error err => ifErr err
  | .ok entries =>
    match w.create reportPath with
    | some err => ifErr err
    | none =>
      match w.parseFiles "suite.tpl".toList with
      | .error err => ⟨[.create reportPath, .mustPanic err], .fatal err⟩
      | .ok tpl =>
        let r := generateReportLoop w fs tpl entries
        ⟨.create reportPath :: r.events, r.status⟩

/-- The loop of `main` over the lines of the input. -/
def parseRepos (b : Str) : List Str :=
  (split b '\n').foldl
    (fun repos line =>
      let repo := trimSpace line
      if repo ≠ [] then repos ++ [repo] else repos)
    []

/-- The acquisition goroutines of `main` up to `wg.Wait()`, taken in the order
in which they finish: each runs `ifErr(clone(r))`; a clone that returns an
error ends the process in `log.Fatal` before its `wg.Done()`, so `wg.Wait()`
returns only when every clone has returned `nil`.  The events of a goroutine
are recorded as one block when it finishes; the interleaving of the blocks of
goroutines that are still running is left out. -/
def acquireAll (w : World) : List Str → Run
  | [] => ⟨[], .returned⟩
  | r :: rest =>
    match clone w r with
    | (ev, some err) => ⟨ev ++ (ifErr err).events, (ifErr err).status⟩
    | (ev, none) =>
      let t := acquireAll w rest
      ⟨ev ++ t.events, t.status⟩

/-- The last line `main` prints. -/
def allDone : Event := .stdout " All done! See report.txt for results.\n".toList

/-- Go `main`, started on the file system `fs`. -/
def main (w : World) (fs : FileSystem) : Run :=
  match w.flagParse with
  | some err => ⟨[], .fatal err⟩
  | none =>
    if w.token = [] then
      ⟨[.logFatal "[ERROR] GITHUB_TOKEN must be set in the environment".toList],
        .fatal "[ERROR] GITHUB_TOKEN must be set in the environment".toList⟩
    else
      match w.mkdirAll reposDir with
      | some err => ifErr err
      | none =>
        match w.mkdirAll testsDir with
        | some err => ifErr err
        | none =>
          match w.stdin with
          | .error err => ifErr err
          | .ok b =>
            let repos := parseRepos b
            let a := acquireAll w (w.order repos)
            match a.status with
            | .fatal err => ⟨a.events, .fatal err⟩
            | .returned =>
              let t := runTests w repos fs
              match t.status with
              | .fatal err => ⟨a.events ++ t.events, .fatal err⟩
              | .returned =>
                let g := generateReport w t.fs
                match g.status with
                | .fatal err => ⟨a.events ++ t.events ++ g.events, .fatal err⟩
                | .returned => ⟨a.events ++ t.events ++ g.events ++ [allDone], .returned⟩

/-! ## Notions used in the statements -/

/-- The specification's invariant of a `RepoIdentifier`: exactly one separator,
both parts non-empty. -/
def validIdentifier (id : Str) : Bool :=
  match split id '/' with
  | [owner, name] => !owner.isEmpty && !name.isEmpty
  | _ => false

/-- The test-suite directory `runTests` looks for in the clone of `repo`. -/
def testDir (repo : Str) : Str :=
  reposDir ++ "/".toList ++ replaceAll repo '/' '_' ++ "/test/e2e".toList

/-- The skip line `runTests` prints for `repo`. -/
def skipLine (repo : Str) : Event :=
  .stdout ("[SKIP] No test/e2e directory for ".toList ++ repo ++ "\n".toList)

/-- Whether an event is a printed line that starts with `[SKIP]`. -/
def isSkipLine : Event → Bool
  | .stdout text => "[SKIP]".toList.isPrefixOf text
  | _ => false

/-- Whether an event is a run of the test tool `ginkgo`. -/
def isToolRun : Event → Bool
  | .run _ (cmd :: _) => decide (cmd = "ginkgo".toList)
  | _ => false

/-- The events of the iteration of the loop of `runTests` for `repo`. -/
def visit (w : World) (outputDir repo : Str) : List Event :=
  if w.statNotExist (testDir repo) then [skipLine repo]
  else
    .stdout ("Running tests for ".toList ++ repo ++ "...\n".toList) ::
    .run (testDir repo) (ginkgoArgv outputDir repo) ::
    match w.run (testDir repo) (ginkgoArgv outputDir repo) with
    | some err =>
      [.stdout ("[ERROR] Ginkgo test failed for ".toList ++ repo ++ ": ".toList ++ err
        ++ "\n".toList)]
    | none => []

/-- The suites an entry of the listing contributes to the report: those
decoded from it, when it is no directory, its name ends in `.json`, and its
content is read and decoded successfully; `none` for every other entry. -/
def decoded (w : World) (fs : FileSystem) (entry : DirEntry) : Option (List suite) :=
  if entry.IsDir || !hasSuffix entry.Name ".json".toList then none
  else
    match fs.readFile (testsDir ++ "/".toList ++ entry.Name) with
    | .error _ => none
    | .ok b =>
      match w.unmarshal b with
      | .error _ => none
      | .ok s => some s

/-- The error with which loading a `.json` file of the listing fails, if it
does: the error of reading it or of decoding it. -/
def loadError (w : World) (fs : FileSystem) (entry : DirEntry) : Option Str :=
  if entry.IsDir || !hasSuffix entry.Name ".json".toList then none
  else
    match fs.readFile (testsDir ++ "/".toList ++ entry.Name) with
    | .error err => some err
    | .ok b =>
      match w.unmarshal b with
      | .error err => some err
      | .ok _ => none

/-- The file system `fs` with `entries` as the listing of the `tests` directory. -/
def FileSystem.withListing (fs : FileSystem) (entries : List DirEntry) : FileSystem :=
  ⟨fun d => if d = testsDir then .ok entries else fs.readDir d, fs.readFile⟩

/-- The effect of one event on the content of `report.txt` (`none`: the file
has been neither created nor written). -/
def reportStep (content : Option Str) : Event → Option Str
  | .create path => if path = reportPath then some [] else content
  | .execute path _ text => if path = reportPath then some (content.getD [] ++ text) else content
  | _ => content

/-- The content of `report.txt` after a sequence of events, `none` when none
of them created or wrote the file. -/
def reportFile (events : List Event) : Option Str :=
  events.foldl reportStep none

/-- The lines printed to standard output by a sequence of events. -/
def printed (events : List Event) : List Str :=
  events.filterMap fun
    | .stdout text => some text
    | _ => none

/-- The events of the iteration of the loop of `generateReport` for `entry`,
when the rendering of its suites, if it has any, succeeds. -/
def entryEvents (w : World) (fs : FileSystem) (tpl : Template) (entry : DirEntry) : List Event :=
  match decoded w fs entry with
  | none =>
    match loadError w fs entry with
    | some err => [.stdout (err ++ "\n".toList)]
    | none => []
  | some s => [.execute reportPath (testsDir ++ "/".toList ++ entry.Name) (tpl s).1]

/-- Whether an event is one that the start of `main` and the acquisition
goroutines produce: a repository lookup, the line `Cloning repository: ...`, a
run of `git`, or a call of `log.Fatal`. -/
def ofAcquisition : Event → Bool
  | .lookup _ _ => true
  | .logFatal _ => true
  | .stdout text => "Cloning repository: ".toList.isPrefixOf text
  | .run dir (cmd :: _) => decide (dir = []) && decide (cmd = "git".toList)
  | _ => false

/-- Whether an event ends the process. -/
def isFatalEvent : Event → Bool
  | .logFatal _ => true
  | .mustPanic _ => true
  | _ => false

/-! ## Concrete environments -/

/-- One suite with one passing spec. -/
def demoSuite : suite :=
  ⟨"/src/e2e".toList, "widgets e2e".toList, true, ⟨1, 1⟩,
    [⟨"starts".toList, "It".toList, "passed".toList, 1, ⟨[], ⟨0, []⟩⟩⟩]⟩

/-- The suite of an earlier run. -/
def staleSuite : suite :=
  ⟨"/src/e2e".toList, "gadgets e2e, last week".toList, false, ⟨1, 1⟩,
    [⟨"starts".toList, "It".toList, "failed".toList, 3,
      ⟨"timed out".toList, ⟨42, "gadgets_test.go:42".toList⟩⟩⟩]⟩

/-- A template that writes the description of every suite on a line of its own. -/
def demoTemplate : Template :=
  fun s => ((s.map fun x => x.Description ++ "\n".toList).flatten, none)

/-- A template whose execution stops with an error after writing `"!"`. -/
def brokenTemplate : Template :=
  fun _ => ("!".toList, some "template: suite.tpl: executing".toList)

/-- An environment in which every request succeeds: the input names
`acme/widgets` and `acme/gadgets`, only the former has a `test/e2e` directory. -/
def demoWorld : World where
  flagParse := none
  token := "secret".toList
  mkdirAll := fun _ => none
  stdin := .ok "acme/widgets\nacme/gadgets".toList
  reposGet := fun owner name =>
    .ok ⟨owner ++ "/".toList ++ name, "https://example.org/".toList ++ owner ++ "/".toList ++ name⟩
  run := fun _ _ => none
  order := fun l => l
  getwd := .ok "/work".toList
  stat := fun p => if p = "repos/acme_gadgets/test/e2e".toList then .notExist else .directory
  jsonReport := fun _ _ => some "[1]".toList
  create := fun _ => none
  parseFiles := fun _ => .ok demoTemplate
  unmarshal := fun b =>
    if b = "[1]".toList then .ok [demoSuite]
    else if b = "[0]".toList then .ok [staleSuite]
    else .error "unexpected end of JSON input".toList

/-- A file system whose `tests` directory is empty. -/
def emptyFS : FileSystem where
  readDir := fun d => if d = testsDir then .ok [] else .error "no such directory".toList
  readFile := fun _ => .error "no such file".toList

/-- The files of a `tests` directory: `a.json` and `b.json` hold a result,
`bad.json` is cut short; the other paths cannot be read. -/
def sampleFS : FileSystem where
  readDir := fun d =>
    if d = testsDir then
      .ok [⟨"a.json".toList, false⟩, ⟨"bad.json".toList, false⟩, ⟨"b.json".toList, false⟩]
    else .error "no such directory".toList
  readFile := fun p =>
    if p = "tests/a.json".toList then .ok "[1]".toList
    else if p = "tests/b.json".toList then .ok "[1]".toList
    else if p = "tests/bad.json".toList then .ok "[".toList
    else .error "is a directory".toList

/-- The demonstration environment, except that `acme/gadgets` cannot be
resolved and the goroutines finish in reverse order. -/
def offlineWorld : World :=
  { demoWorld with
    reposGet := fun owner name =>
      if name = "gadgets".toList then .error "404 Not Found".toList
      else demoWorld.reposGet owner name
    order := List.reverse }

/-- The demonstration environment, except that neither clone has a test
directory, yet `os.Stat` reports no missing path: `acme/widgets` holds a
regular file named `test`, so that `os.Stat` of `test/e2e` fails with
`ENOTDIR`, and in `acme/gadgets` the path `test/e2e` is a regular file. -/
def blockedWorld : World :=
  { demoWorld with
    stat := fun p =>
      if p = "repos/acme_widgets/test/e2e".toList then .notDir
      else if p = "repos/acme_gadgets/test/e2e".toList then .file
      else .directory }

/-- The demonstration environment, except that the working directory cannot
be determined. -/
def lostWorld : World :=
  { demoWorld with getwd := .error "getwd: no such file or directory".toList }

/-- The demonstration environment with a template whose execution fails. -/
def brokenWorld : World :=
  { demoWorld with parseFiles := fun _ => .ok brokenTemplate }

/-! ## Lemmas on the string functions -/

theorem split_ne_nil (s : Str) (sep : Char) : split s sep ≠ [] := by
  cases s with
  | nil => simp [split]
  | cons c cs =>
    unfold split
    split_ifs
    · simp
    · split <;> simp

theorem split_cons_sep (cs : Str) (sep : Char) : split (sep :: cs) sep = [] :: split cs sep := by
  simp [split]

theorem split_cons_ne (c : Char) (cs : Str) (sep : Char) (h : c ≠ sep) :
    split (c :: cs) sep = (c :: (split cs sep).headD []) :: (split cs sep).tail := by
  have hne := split_ne_nil cs sep
  rw [split, if_neg h]
  cases hs : split cs sep with
  | nil => exact absurd hs hne
  | cons p ps => simp

theorem split_length (s : Str) (sep : Char) : (split s sep).length = s.count sep + 1 := by
  induction s with
  | nil => simp [split]
  | cons c cs ih =>
    by_cases h : c = sep
    · subst h
      simp [split_cons_sep, ih]
    · have hne := split_ne_nil cs sep
      rw [split_cons_ne c cs sep h, List.count_cons_of_ne (Ne.symm h)]
      simp only [List.length_cons, List.length_tail]
      have : 0 < (split cs sep).length := List.length_pos.mpr hne
      omega

theorem split_of_not_mem (s : Str) (sep : Char) (h : sep ∉ s) : split s sep = [s] := by
  induction s with
  | nil => simp [split]
  | cons c cs ih =>
    have hc : c ≠ sep := fun e => h (by simp [e])
    have hcs : sep ∉ cs := fun e => h (List.mem_cons_of_mem _ e)
    rw [split_cons_ne c cs sep hc, ih hcs]
    simp

theorem split_append_sep (o n : Str) (sep : Char) (h : sep ∉ o) :
    split (o ++ sep :: n) sep = o :: split n sep := by
  induction o with
  | nil => simp [split_cons_sep]
  | cons c cs ih =>
    have hc : c ≠ sep := fun e => h (by simp [e])
    have hcs : sep ∉ cs := fun e => h (List.mem_cons_of_mem _ e)
    rw [List.cons_append, split_cons_ne c _ sep hc, ih hcs]
    simp

theorem not_mem_of_mem_split (s : Str) (sep : Char) :
    ∀ p ∈ split s sep, sep ∉ p := by
  induction s with
  | nil => simp [split]
  | cons c cs ih =>
    intro p hp
    by_cases h : c = sep
    · subst h
      rw [split_cons_sep] at hp
      rcases List.mem_cons.mp hp with rfl | hp
      · simp
      · exact ih p hp
    · have hne := split_ne_nil cs sep
      rw [split_cons_ne c cs sep h] at hp
      cases hs : split cs sep with
      | nil => exact absurd hs hne
      | cons q qs =>
        rw [hs] at hp ih
        simp only [List.headD_cons, List.tail_cons, List.mem_cons] at hp
        rcases hp with rfl | hp
        · intro hm
          rcases List.mem_cons.mp hm with e | hm
          · exact h e.symm
          · exact ih q (List.mem_cons_self _ _) hm
        · exact ih p (List.mem_cons_of_mem _ hp)

theorem intercalate_split (s : Str) (sep : Char) :
    [sep].intercalate (split s sep) = s := by
  induction s with
  | nil => simp [split, List.intercalate]
  | cons c cs ih =>
    have hne := split_ne_nil cs sep
    by_cases h : c = sep
    · subst h
      rw [split_cons_sep]
      cases hs : split cs c with
      | nil => exact absurd hs hne
      | cons q qs =>
        rw [hs] at ih
        simp only [List.intercalate, List.intersperse, List.flatten] at ih ⊢
        simpa using ih
    · rw [split_cons_ne c cs sep h]
      cases hs : split cs sep with
      | nil => exact absurd hs hne
      | cons q qs =>
        rw [hs] at ih
        cases qs with
        | nil =>
          simp only [List.intercalate, List.intersperse, List.flatten, List.headD_cons,
            List.tail_cons] at ih ⊢
          simpa using ih
        | cons q2 qs2 =>
          simp only [List.intercalate, List.intersperse, List.flatten, List.headD_cons,
            List.tail_cons] at ih ⊢
          simpa using ih

theorem split_eq_pair (s o n : Str) (sep : Char) (h : split s sep = [o, n]) :
    s = o ++ sep :: n ∧ sep ∉ o ∧ sep ∉ n := by
  have h1 := intercalate_split s sep
  have h2 := not_mem_of_mem_split s sep
  rw [h] at h1 h2
  refine ⟨?_, h2 o (by simp), h2 n (by simp)⟩
  rw [← h1]
  simp [List.intercalate, List.intersperse, List.flatten]

theorem rdropWhile_decompose (p : Char → Bool) (l : Str) :
    ∃ post, l = l.rdropWhile p ++ post ∧ ∀ c ∈ post, p c = true := by
  induction l using List.reverseRecOn with
  | nil => exact ⟨[], by simp⟩
  | append_singleton l x ih =>
    by_cases hx : p x = true
    · obtain ⟨post, h1, h2⟩ := ih
      refine ⟨post ++ [x], ?_, ?_⟩
      · rw [List.rdropWhile_concat_pos p l x hx, ← List.append_assoc, ← h1]
      · intro c hc
        rcases List.mem_append.mp hc with hc | hc
        · exact h2 c hc
        · simpa [List.mem_singleton.mp hc] using hx
    · exact ⟨[], by rw [List.rdropWhile_concat_neg p l x hx]; simp, by simp⟩

theorem trimSpace_eq (s : Str) : trimSpace s = (s.dropWhile isSpace).rdropWhile isSpace := rfl

theorem trimSpace_decompose (s : Str) :
    ∃ pre post, s = pre ++ trimSpace s ++ post ∧
      (∀ c ∈ pre, isSpace c = true) ∧ (∀ c ∈ post, isSpace c = true) := by
  obtain ⟨post, h1, h2⟩ := rdropWhile_decompose isSpace (s.dropWhile isSpace)
  refine ⟨s.takeWhile isSpace, post, ?_, ?_, h2⟩
  · rw [trimSpace_eq, List.append_assoc, ← h1, List.takeWhile_append_dropWhile]
  · intro c hc
    exact (List.mem_takeWhile_imp hc)

theorem trimSpace_getLast (s : Str) (c : Char) (h : (trimSpace s).getLast? = some c) :
    isSpace c = false := by
  have hne : trimSpace s ≠ [] := by
    intro e
    rw [e] at h
    simp at h
  have hl := List.rdropWhile_last_not isSpace (s.dropWhile isSpace)
    (by rw [← trimSpace_eq]; exact hne)
  rw [List.getLast?_eq_getLast _ hne] at h
  have hc : (trimSpace s).getLast hne = c := Option.some.inj h
  have hl2 : ¬ isSpace ((trimSpace s).getLast hne) = true := hl
  rw [hc] at hl2
  simpa using hl2

theorem trimSpace_head (s : Str) (c : Char) (h : (trimSpace s).head? = some c) :
    isSpace c = false := by
  have hp : trimSpace s <+: s.dropWhile isSpace := by
    rw [trimSpace_eq]
    exact List.rdropWhile_prefix isSpace _
  obtain ⟨t, ht⟩ := hp
  cases hts : trimSpace s with
  | nil =>
    rw [hts] at h
    simp at h
  | cons x xs =>
    rw [hts] at h ht
    have hx : x = c := by simpa using h
    have hd := List.head?_dropWhile_not isSpace s
    rw [← ht] at hd
    simp only [List.cons_append, List.head?_cons] at hd
    rw [← hx]
    simpa using hd

theorem parseRepos_foldl (ls : List Str) (acc : List Str) :
    ls.foldl (fun repos line => if trimSpace line ≠ [] then repos ++ [trimSpace line] else repos) acc
      = acc ++ (ls.map trimSpace).filter (fun r => decide (r ≠ [])) := by
  induction ls generalizing acc with
  | nil => simp
  | cons l ls ih =>
    rw [List.foldl_cons, ih]
    by_cases h : trimSpace l = []
    · simp [h]
    · simp [h]

theorem parseRepos_eq (b : Str) :
    parseRepos b = ((split b '\n').map trimSpace).filter (fun r => decide (r ≠ [])) := by
  have h := parseRepos_foldl (split b '\n') []
  simpa [parseRepos] using h

/-- C8: the identifiers `main` builds from the standard input `b` are the
newline-separated lines of `b` (joined by newlines they give `b` back, and none
contains a newline), each trimmed of its surrounding white space (a line is its
trimmed form between two runs of white space), with the lines that are empty
after trimming removed and the order and the duplicates of the others kept; no
identifier is empty, starts with white space or ends with white space. -/
theorem parseRepos_lines (b : Str) :
    parseRepos b = ((split b '\n').map trimSpace).filter (fun r => decide (r ≠ [])) ∧
    ['\n'].intercalate (split b '\n') = b ∧
    (∀ line ∈ split b '\n', '\n' ∉ line ∧
      ∃ pre post, line = pre ++ trimSpace line ++ post ∧
        (∀ c ∈ pre, isSpace c = true) ∧ (∀ c ∈ post, isSpace c = true)) ∧
    (∀ r ∈ parseRepos b, r ≠ [] ∧
      (∀ c, r.head? = some c → isSpace c = false) ∧
      (∀ c, r.getLast? = some c → isSpace c = false)) := by
  refine ⟨parseRepos_eq b, intercalate_split b '\n', ?_, ?_⟩
  · intro line hl
    exact ⟨not_mem_of_mem_split b '\n' line hl, trimSpace_decompose line⟩
  · intro r hr
    rw [parseRepos_eq, List.mem_filter, List.mem_map] at hr
    obtain ⟨⟨line, _, rfl⟩, hne⟩ := hr
    exact ⟨by simpa using hne, trimSpace_head line, trimSpace_getLast line⟩

/-! ## Identifiers and the names derived from them -/

theorem replaceAll_of_not_mem (s : Str) (old new : Char) (h : old ∉ s) :
    replaceAll s old new = s := by
  unfold replaceAll
  induction s with
  | nil => rfl
  | cons c cs ih =>
    have hc : c ≠ old := fun e => h (by simp [e])
    have hcs : old ∉ cs := fun e => h (List.mem_cons_of_mem _ e)
    simp [hc, ih hcs]

theorem replaceAll_identifier (owner name : Str) (ho : '/' ∉ owner) (hn : '/' ∉ name) :
    replaceAll (owner ++ '/' :: name) '/' '_' = owner ++ '_' :: name := by
  have h1 := replaceAll_of_not_mem owner '/' '_' ho
  have h2 := replaceAll_of_not_mem name '/' '_' hn
  unfold replaceAll at *
  simp [h1, h2]

theorem split_identifier (owner name : Str) (ho : '/' ∉ owner) (hn : '/' ∉ name) :
    split (owner ++ '/' :: name) '/' = [owner, name] := by
  rw [split_append_sep owner name '/' ho, split_of_not_mem name '/' hn]

theorem split_length_two (s : Str) (sep : Char) (h : (split s sep).length = 2) :
    ∃ o n, split s sep = [o, n] ∧ s = o ++ sep :: n ∧ sep ∉ o ∧ sep ∉ n := by
  match hs : split s sep, h with
  | [o, n], _ => exact ⟨o, n, rfl, split_eq_pair s o n sep hs⟩

theorem append_cons_cancel (a : Char) :
    ∀ (x₁ x₂ z₁ z₂ : Str), a ∉ x₁ → a ∉ x₂ → x₁ ++ a :: z₁ = x₂ ++ a :: z₂ →
      x₁ = x₂ ∧ z₁ = z₂
  | [], [], _, _, _, _, h => ⟨rfl, by simpa using h⟩
  | [], y :: ys, _, _, _, h2, h => by
    simp only [List.nil_append, List.cons_append, List.cons.injEq] at h
    exact absurd (by simp [h.1]) h2
  | x :: xs, [], _, _, h1, _, h => by
    simp only [List.nil_append, List.cons_append, List.cons.injEq] at h
    exact absurd (by simp [h.1]) h1
  | x :: xs, y :: ys, z₁, z₂, h1, h2, h => by
    simp only [List.cons_append, List.cons.injEq] at h
    have ih := append_cons_cancel a xs ys z₁ z₂
      (fun e => h1 (List.mem_cons_of_mem _ e)) (fun e => h2 (List.mem_cons_of_mem _ e)) h.2
    exact ⟨by rw [h.1, ih.1], ih.2⟩

theorem clone_of_length_ne (w : World) (repo : Str) (h : (split repo '/').length ≠ 2) :
    clone w repo = ([], some ("invalid repo format: ".toList ++ repo)) := by
  simp [clone, h]

theorem clone_of_length_eq (w : World) (repo : Str) (h : (split repo '/').length = 2) :
    (clone w repo).1.head? =
      some (.lookup ((split repo '/').getD 0 []) ((split repo '/').getD 1 [])) := by
  unfold clone
  simp only [h, ne_eq, not_true_eq_false, if_false]
  cases w.reposGet ((split repo '/').getD 0 []) ((split repo '/').getD 1 []) <;> simp

/-- C5, as stated, fails: the identifiers `/name` (empty owner) and `owner/`
(empty name) are not valid by the specification, yet `clone` does not reject
them with the invalid-format error; its first step is the repository lookup
with the empty segment. -/
theorem clone_accepts_empty_segment :
    validIdentifier "/name".toList = false ∧
    validIdentifier "owner/".toList = false ∧
    clone demoWorld "/name".toList ≠ ([], some ("invalid repo format: /name".toList)) ∧
    (clone demoWorld "/name".toList).1.head? = some (.lookup [] "name".toList) ∧
    clone demoWorld "owner/".toList ≠ ([], some ("invalid repo format: owner/".toList)) ∧
    (clone demoWorld "owner/".toList).1.head? = some (.lookup "owner".toList []) := by
  decide

/-- C5 (amended): `clone` fails with the invalid-format error, before any
lookup or fetch, exactly for the identifiers that do not contain exactly one
`/` (none, or more than one); an identifier with exactly one `/` passes the
format check even when a segment is empty, and the first thing `clone` does
with it is the repository lookup for its two segments. -/
theorem clone_invalid_format_iff (w : World) (repo : Str) :
    (clone w repo = ([], some ("invalid repo format: ".toList ++ repo)) ↔ repo.count '/' ≠ 1) ∧
    (clone w repo).1.head? =
      if repo.count '/' = 1 then
        some (.lookup ((split repo '/').getD 0 []) ((split repo '/').getD 1 []))
      else none := by
  have hlen := split_length repo '/'
  by_cases h : repo.count '/' = 1
  · have h2 : (split repo '/').length = 2 := by omega
    have hh := clone_of_length_eq w repo h2
    refine ⟨⟨fun e => ?_, fun e => absurd h e⟩, by rw [if_pos h]; exact hh⟩
    rw [e] at hh
    simp at hh
  · have h2 : (split repo '/').length ≠ 2 := by omega
    have hh := clone_of_length_ne w repo h2
    exact ⟨⟨fun _ => h, fun _ => hh⟩, by rw [if_neg h, hh]; rfl⟩

theorem runTests_single (w : World) (repo cwd : Str) (fs : FileSystem)
    (hcwd : w.getwd = .ok cwd) :
    (runTests w [repo] fs).events =
      if w.statNotExist (reposDir ++ "/".toList ++ replaceAll repo '/' '_' ++ "/test/e2e".toList) then
        [.stdout ("[SKIP] No test/e2e directory for ".toList ++ repo ++ "\n".toList)]
      else
        .stdout ("Running tests for ".toList ++ repo ++ "...\n".toList) ::
        .run (reposDir ++ "/".toList ++ replaceAll repo '/' '_' ++ "/test/e2e".toList)
          (ginkgoArgv ("--output-dir=".toList ++ cwd ++ "/".toList ++ testsDir) repo) ::
        (match w.run (reposDir ++ "/".toList ++ replaceAll repo '/' '_' ++ "/test/e2e".toList)
            (ginkgoArgv ("--output-dir=".toList ++ cwd ++ "/".toList ++ testsDir) repo) with
          | some err =>
            [.stdout ("[ERROR] Ginkgo test failed for ".toList ++ repo ++ ": ".toList ++ err
              ++ "\n".toList)]
          | none => []) := by
  simp only [runTests, hcwd, runTestsLoop]
  split_ifs with h
  · rfl
  · cases w.run (reposDir ++ "/".toList ++ replaceAll repo '/' '_' ++ "/test/e2e".toList)
      (ginkgoArgv ("--output-dir=".toList ++ cwd ++ "/".toList ++ testsDir) repo) <;> rfl

/-- C9: for an identifier `owner/name` with exactly one separator, `clone`
fetches into `repos/<owner>_<name>`, and `runTests` checks the directory
`repos/<owner>_<name>/test/e2e`, runs the test tool with that directory as its
working directory, and passes it the report name `<owner>_<name>.json`: both
stages derive the same `<owner>_<name>` from the identifier. -/
theorem derived_names_agree (w : World) (owner name : Str)
    (ho : '/' ∉ owner) (hn : '/' ∉ name) :
    replaceAll (owner ++ '/' :: name) '/' '_' = owner ++ '_' :: name ∧
    (∀ r, w.reposGet owner name = .ok r →
      (clone w (owner ++ '/' :: name)).1 =
        [.lookup owner name,
         .stdout ("Cloning repository: ".toList ++ r.FullName ++ "\n".toList),
         .run [] ["git".toList, "clone".toList, "--depth=1".toList, r.CloneURL,
           "repos/".toList ++ owner ++ '_' :: name]]) ∧
    (∀ cwd fs, w.getwd = .ok cwd →
      (w.statNotExist ("repos/".toList ++ owner ++ '_' :: name ++ "/test/e2e".toList) = true →
        (runTests w [owner ++ '/' :: name] fs).events =
          [.stdout ("[SKIP] No test/e2e directory for ".toList ++ owner ++ '/' :: name
            ++ "\n".toList)]) ∧
      (w.statNotExist ("repos/".toList ++ owner ++ '_' :: name ++ "/test/e2e".toList) = false →
        (runTests w [owner ++ '/' :: name] fs).events.take 2 =
          [.stdout ("Running tests for ".toList ++ owner ++ '/' :: name ++ "...\n".toList),
           .run ("repos/".toList ++ owner ++ '_' :: name ++ "/test/e2e".toList)
            ["ginkgo".toList, "--tags=e2e,osde2e".toList, "--flake-attempts=3".toList,
             "--procs=4".toList, "-vv".toList, "--trace".toList,
             "--output-dir=".toList ++ cwd ++ "/tests".toList,
             "--json-report=".toList ++ owner ++ '_' :: name ++ ".json".toList,
             ".".toList]])) := by
  have hrep := replaceAll_identifier owner name ho hn
  have hsplit := split_identifier owner name ho hn
  have hdir : reposDir ++ "/".toList ++ (owner ++ '_' :: name) ++ "/test/e2e".toList
      = "repos/".toList ++ owner ++ '_' :: name ++ "/test/e2e".toList := by
    simp [reposDir]
  refine ⟨hrep, ?_, ?_⟩
  · intro r hr
    unfold clone
    simp only [hsplit, List.length_cons, List.length_nil, ne_eq, not_true_eq_false, if_false,
      List.getD_cons_zero, List.getD_cons_succ, hr, hrep]
    simp [reposDir]
  · intro cwd fs hcwd
    have hev := runTests_single w (owner ++ '/' :: name) cwd fs hcwd
    rw [hrep, hdir] at hev
    constructor
    · intro hskip
      rw [hev, hskip]
      simp
    · intro hrun
      rw [hev, hrun]
      simp [ginkgoArgv, hrep, testsDir]

/-- C9 at `acme/widgets` in the demonstration environment. -/
theorem derived_names_agree_witness :
    '/' ∉ "acme".toList ∧ '/' ∉ "widgets".toList ∧
    (clone demoWorld "acme/widgets".toList).1 =
      [.lookup "acme".toList "widgets".toList,
       .stdout "Cloning repository: acme/widgets\n".toList,
       .run [] ["git".toList, "clone".toList, "--depth=1".toList,
         "https://example.org/acme/widgets".toList, "repos/acme_widgets".toList]] :=
  ⟨by decide, by decide,
    (derived_names_agree demoWorld "acme".toList "widgets".toList (by decide) (by decide)).2.1
      _ rfl⟩

/-- C10, as stated, fails: `a_b/c` and `a/b_c` are distinct, both pass the
format check of `clone`, and both are given the directory `repos/a_b_c`, the
test directory `repos/a_b_c/test/e2e` and the report name `a_b_c.json`. -/
theorem distinct_identifiers_share_directory :
    "a_b/c".toList ≠ "a/b_c".toList ∧
    (split "a_b/c".toList '/').length = 2 ∧ (split "a/b_c".toList '/').length = 2 ∧
    (clone demoWorld "a_b/c".toList).1.getLast? =
      some (.run [] ["git".toList, "clone".toList, "--depth=1".toList,
        "https://example.org/a_b/c".toList, "repos/a_b_c".toList]) ∧
    (clone demoWorld "a/b_c".toList).1.getLast? =
      some (.run [] ["git".toList, "clone".toList, "--depth=1".toList,
        "https://example.org/a/b_c".toList, "repos/a_b_c".toList]) ∧
    replaceAll "a_b/c".toList '/' '_' = replaceAll "a/b_c".toList '/' '_' ∧
    replaceAll "a_b/c".toList '/' '_' ++ ".json".toList
      = replaceAll "a/b_c".toList '/' '_' ++ ".json".toList := by
  decide

/-- C10 (amended): two distinct identifiers that pass the format check of
`clone` and whose owner segments contain no underscore are given different
directory names, hence different clone targets, different test directories and
different JSON report names. -/
theorem directory_names_differ (a b : Str)
    (ha : (split a '/').length = 2) (hb : (split b '/').length = 2)
    (hua : '_' ∉ (split a '/').getD 0 []) (hub : '_' ∉ (split b '/').getD 0 [])
    (hab : a ≠ b) :
    replaceAll a '/' '_' ≠ replaceAll b '/' '_' ∧
    reposDir ++ "/".toList ++ replaceAll a '/' '_' ≠ reposDir ++ "/".toList ++ replaceAll b '/' '_' ∧
    reposDir ++ "/".toList ++ replaceAll a '/' '_' ++ "/test/e2e".toList
      ≠ reposDir ++ "/".toList ++ replaceAll b '/' '_' ++ "/test/e2e".toList ∧
    replaceAll a '/' '_' ++ ".json".toList ≠ replaceAll b '/' '_' ++ ".json".toList := by
  obtain ⟨o₁, n₁, hs₁, rfl, ho₁, hn₁⟩ := split_length_two a '/' ha
  obtain ⟨o₂, n₂, hs₂, rfl, ho₂, hn₂⟩ := split_length_two b '/' hb
  rw [hs₁] at hua
  rw [hs₂] at hub
  simp only [List.getD_cons_zero] at hua hub
  rw [replaceAll_identifier o₁ n₁ ho₁ hn₁, replaceAll_identifier o₂ n₂ ho₂ hn₂]
  have key : o₁ ++ '_' :: n₁ ≠ o₂ ++ '_' :: n₂ := by
    intro e
    obtain ⟨e1, e2⟩ := append_cons_cancel '_' o₁ o₂ n₁ n₂ hua hub e
    exact hab (by rw [e1, e2])
  refine ⟨key, ?_, ?_, ?_⟩
  · intro e
    exact key (List.append_cancel_left e)
  · intro e
    exact key (List.append_cancel_left (List.append_cancel_right e))
  · intro e
    exact key (List.append_cancel_right e)

/-- C10 (amended) at `acme/widgets` and `acme/gadgets`. -/
theorem directory_names_differ_witness :
    (split "acme/widgets".toList '/').length = 2 ∧
    (split "acme/gadgets".toList '/').length = 2 ∧
    '_' ∉ (split "acme/widgets".toList '/').getD 0 [] ∧
    '_' ∉ (split "acme/gadgets".toList '/').getD 0 [] ∧
    "acme/widgets".toList ≠ "acme/gadgets".toList ∧
    replaceAll "acme/widgets".toList '/' '_' ≠ replaceAll "acme/gadgets".toList '/' '_' :=
  ⟨by decide, by decide, by decide, by decide, by decide,
    (directory_names_differ "acme/widgets".toList "acme/gadgets".toList
      (by decide) (by decide) (by decide) (by decide) (by decide)).1⟩

/-! ## The test stage -/

theorem runTestsLoop_cons (w : World) (outputDir r : Str) (rest : List Str) (fs : FileSystem) :
    ∃ fs1, (runTestsLoop w outputDir (r :: rest) fs).1
      = visit w outputDir r ++ (runTestsLoop w outputDir rest fs1).1 := by
  simp only [runTestsLoop]
  unfold visit testDir skipLine
  by_cases h : w.statNotExist
      (reposDir ++ "/".toList ++ replaceAll r '/' '_' ++ "/test/e2e".toList) = true
  · refine ⟨fs, ?_⟩
    rw [if_pos h, if_pos h]
    rfl
  · refine ⟨fs.writeReport (replaceAll r '/' '_' ++ ".json".toList)
      (w.jsonReport (reposDir ++ "/".toList ++ replaceAll r '/' '_' ++ "/test/e2e".toList)
        (ginkgoArgv outputDir r)), ?_⟩
    rw [if_neg h, if_neg h]
    cases hr : w.run (reposDir ++ "/".toList ++ replaceAll r '/' '_' ++ "/test/e2e".toList)
      (ginkgoArgv outputDir r) <;> rfl

theorem runTestsLoop_events (w : World) (outputDir : Str) (repos : List Str) (fs : FileSystem) :
    (runTestsLoop w outputDir repos fs).1 = (repos.map (visit w outputDir)).flatten := by
  induction repos generalizing fs with
  | nil => rfl
  | cons r rest ih =>
    obtain ⟨fs1, h⟩ := runTestsLoop_cons w outputDir r rest fs
    rw [h, ih fs1, List.map_cons, List.flatten_cons]

theorem filter_isToolRun_visit (w : World) (outputDir repo : Str) :
    (visit w outputDir repo).filter isToolRun =
      if w.statNotExist (testDir repo) then []
      else [.run (testDir repo) (ginkgoArgv outputDir repo)] := by
  unfold visit
  by_cases h : w.statNotExist (testDir repo) = true
  · simp [h, skipLine, isToolRun]
  · simp only [h, if_false]
    cases w.run (testDir repo) (ginkgoArgv outputDir repo) <;>
      simp [isToolRun, ginkgoArgv]

theorem filter_isSkipLine_visit (w : World) (outputDir repo : Str) :
    (visit w outputDir repo).filter isSkipLine =
      if w.statNotExist (testDir repo) then [skipLine repo] else [] := by
  unfold visit
  by_cases h : w.statNotExist (testDir repo) = true
  · simp [h, skipLine, isSkipLine]
  · simp only [h, if_false]
    cases w.run (testDir repo) (ginkgoArgv outputDir repo) <;>
      simp [isSkipLine]

theorem filter_flatten_map_visit (p : Event → Bool) (f : Str → List Event)
    (c : Str → Bool) (g : Str → Event)
    (h : ∀ r, (f r).filter p = if c r then [g r] else []) (repos : List Str) :
    ((repos.map f).flatten).filter p = (repos.filter c).map g := by
  induction repos with
  | nil => rfl
  | cons r rest ih =>
    rw [List.map_cons, List.flatten_cons, List.filter_append, ih, h r]
    by_cases hc : c r = true
    · simp [hc]
    · simp [hc]

/-! ## The report stage -/

theorem generateReportLoop_cons (w : World) (fs : FileSystem) (tpl : Template)
    (e : DirEntry) (rest : List DirEntry) :
    generateReportLoop w fs tpl (e :: rest) =
      match decoded w fs e with
      | none =>
        ⟨(match loadError w fs e with
            | some err => [.stdout (err ++ "\n".toList)]
            | none => []) ++ (generateReportLoop w fs tpl rest).events,
          (generateReportLoop w fs tpl rest).status⟩
      | some s =>
        match tpl s with
        | (text, some err) =>
          ⟨[.execute reportPath (testsDir ++ "/".toList ++ e.Name) text, .logFatal err], .fatal err⟩
        | (text, none) =>
          ⟨.execute reportPath (testsDir ++ "/".toList ++ e.Name) text ::
            (generateReportLoop w fs tpl rest).events,
            (generateReportLoop w fs tpl rest).status⟩ := by
  simp only [generateReportLoop]
  unfold decoded loadError
  by_cases h : (e.IsDir || !hasSuffix e.Name ".json".toList) = true
  · rw [if_pos h, if_pos h, if_pos h]
    rfl
  · rw [if_neg h, if_neg h, if_neg h]
    cases hr : fs.readFile (testsDir ++ "/".toList ++ e.Name) with
    | error err => rfl
    | ok b =>
      dsimp only
      cases hu : w.unmarshal b with
      | error err => rfl
      | ok s => rfl

theorem loadError_of_decoded (w : World) (fs : FileSystem) (e : DirEntry) (s : List suite)
    (h : decoded w fs e = some s) : loadError w fs e = none := by
  unfold decoded at h
  unfold loadError
  by_cases hc : (e.IsDir || !hasSuffix e.Name ".json".toList) = true
  · rw [if_pos hc]
  · rw [if_neg hc] at h ⊢
    cases hr : fs.readFile (testsDir ++ "/".toList ++ e.Name) with
    | error err => rw [hr] at h; simp at h
    | ok b =>
      rw [hr] at h
      dsimp only at h ⊢
      cases hu : w.unmarshal b with
      | error err => rw [hu] at h; simp at h
      | ok s => rfl

theorem decoded_of_loadError (w : World) (fs : FileSystem) (e : DirEntry) (msg : Str)
    (h : loadError w fs e = some msg) : decoded w fs e = none := by
  cases hd : decoded w fs e with
  | none => rfl
  | some s =>
    rw [loadError_of_decoded w fs e s hd] at h
    simp at h

theorem generateReportLoop_cons_ok (w : World) (fs : FileSystem) (tpl : Template)
    (e : DirEntry) (rest : List DirEntry)
    (h : ∀ s, decoded w fs e = some s → (tpl s).2 = none) :
    generateReportLoop w fs tpl (e :: rest) =
      ⟨entryEvents w fs tpl e ++ (generateReportLoop w fs tpl rest).events,
        (generateReportLoop w fs tpl rest).status⟩ := by
  rw [generateReportLoop_cons]
  unfold entryEvents
  cases hd : decoded w fs e with
  | none => rfl
  | some s =>
    have h2 := h s hd
    dsimp only
    rcases ht : tpl s with ⟨text, _ | err⟩
    · rfl
    · rw [ht] at h2
      simp at h2

theorem generateReportLoop_ok (w : World) (fs : FileSystem) (tpl : Template)
    (l : List DirEntry)
    (h : ∀ e ∈ l, ∀ s, decoded w fs e = some s → (tpl s).2 = none) :
    generateReportLoop w fs tpl l = ⟨(l.map (entryEvents w fs tpl)).flatten, .returned⟩ := by
  induction l with
  | nil => rfl
  | cons e rest ih =>
    rw [generateReportLoop_cons_ok w fs tpl e rest (h e (List.mem_cons_self _ _)),
      ih (fun x hx => h x (List.mem_cons_of_mem _ hx))]
    rfl

theorem generateReportLoop_append (w : World) (fs : FileSystem) (tpl : Template)
    (l₁ l₂ : List DirEntry)
    (h : ∀ e ∈ l₁, ∀ s, decoded w fs e = some s → (tpl s).2 = none) :
    generateReportLoop w fs tpl (l₁ ++ l₂) =
      ⟨(l₁.map (entryEvents w fs tpl)).flatten ++ (generateReportLoop w fs tpl l₂).events,
        (generateReportLoop w fs tpl l₂).status⟩ := by
  induction l₁ with
  | nil => rfl
  | cons e rest ih =>
    rw [List.cons_append,
      generateReportLoop_cons_ok w fs tpl e _ (h e (List.mem_cons_self _ _)),
      ih (fun x hx => h x (List.mem_cons_of_mem _ hx))]
    simp

theorem entryEvents_of_none (w : World) (fs : FileSystem) (tpl : Template) (e : DirEntry)
    (hd : decoded w fs e = none) :
    entryEvents w fs tpl e =
      match loadError w fs e with
      | some err => [.stdout (err ++ "\n".toList)]
      | none => [] := by
  unfold entryEvents
  rw [hd]

theorem entryEvents_of_some (w : World) (fs : FileSystem) (tpl : Template) (e : DirEntry)
    (s : List suite) (hd : decoded w fs e = some s) :
    entryEvents w fs tpl e =
      [.execute reportPath (testsDir ++ "/".toList ++ e.Name) (tpl s).1] := by
  unfold entryEvents
  rw [hd]

theorem foldl_reportStep_entryEvents (w : World) (fs : FileSystem) (tpl : Template)
    (l : List DirEntry) (x : Str) :
    ((l.map (entryEvents w fs tpl)).flatten).foldl reportStep (some x) =
      some (x ++ ((l.filterMap (decoded w fs)).map fun s => (tpl s).1).flatten) := by
  induction l generalizing x with
  | nil => simp
  | cons e rest ih =>
    rw [List.map_cons, List.flatten_cons, List.foldl_append]
    cases hd : decoded w fs e with
    | none =>
      rw [entryEvents_of_none w fs tpl e hd]
      have hstep : (match loadError w fs e with
          | some err => [Event.stdout (err ++ "\n".toList)]
          | none => []).foldl reportStep (some x) = some x := by
        cases loadError w fs e <;> rfl
      rw [hstep, ih x, List.filterMap_cons_none hd]
    | some s =>
      rw [entryEvents_of_some w fs tpl e s hd, List.filterMap_cons_some hd]
      simp only [List.foldl_cons, List.foldl_nil, reportStep, if_true, Option.getD_some]
      rw [ih]
      simp

theorem printed_entryEvents (w : World) (fs : FileSystem) (tpl : Template)
    (l : List DirEntry) :
    printed ((l.map (entryEvents w fs tpl)).flatten) =
      l.filterMap fun e => (loadError w fs e).map fun err => err ++ "\n".toList := by
  induction l with
  | nil => rfl
  | cons e rest ih =>
    unfold printed at ih ⊢
    rw [List.map_cons, List.flatten_cons, List.filterMap_append, ih]
    cases hd : decoded w fs e with
    | none =>
      rw [entryEvents_of_none w fs tpl e hd]
      cases hl : loadError w fs e with
      | none => simp [hl]
      | some err => simp [hl]
    | some s =>
      rw [entryEvents_of_some w fs tpl e s hd]
      simp [loadError_of_decoded w fs e s hd]

theorem generateReport_eq (w : World) (fs : FileSystem) (tpl : Template) (l : List DirEntry)
    (hdir : fs.readDir testsDir = .ok l)
    (hcreate : w.create reportPath = none)
    (htpl : w.parseFiles "suite.tpl".toList = .ok tpl) :
    generateReport w fs =
      ⟨.create reportPath :: (generateReportLoop w fs tpl l).events,
        (generateReportLoop w fs tpl l).status⟩ := by
  unfold generateReport
  rw [hdir]
  dsimp only
  rw [hcreate]
  dsimp only
  rw [htpl]

theorem withListing_readDir (fs : FileSystem) (l : List DirEntry) :
    (fs.withListing l).readDir testsDir = .ok l := by
  simp [FileSystem.withListing]

theorem entryEvents_withListing (w : World) (fs : FileSystem) (tpl : Template)
    (l : List DirEntry) :
    entryEvents w (fs.withListing l) tpl = entryEvents w fs tpl := rfl

theorem reportFile_create (evs : List Event) :
    reportFile (.create reportPath :: evs) = evs.foldl reportStep (some []) := by
  simp [reportFile, reportStep]

/-! ## Claims on the test stage and on the report stage -/

/-- C3, as stated, fails: in an environment where `acme/widgets` holds a
regular file named `test` (`os.Stat` of its `test/e2e` fails with `ENOTDIR`)
and `test/e2e` of `acme/gadgets` is a regular file, neither repository has a
test directory, yet `runTests` prints no skip line and runs the test tool for
both; and when `os.Getwd` fails, `runTests` ends the process before it visits
any repository, although the test directory of `acme/widgets` exists. -/
theorem tool_runs_without_test_directory :
    blockedWorld.getwd = .ok "/work".toList ∧
    blockedWorld.stat (testDir "acme/widgets".toList) = .notDir ∧
    blockedWorld.stat (testDir "acme/gadgets".toList) = .file ∧
    (runTests blockedWorld ["acme/widgets".toList, "acme/gadgets".toList] emptyFS).events.filter
        isSkipLine = [] ∧
    (runTests blockedWorld ["acme/widgets".toList, "acme/gadgets".toList] emptyFS).events.filter
        isToolRun =
      [.run "repos/acme_widgets/test/e2e".toList
          (ginkgoArgv "--output-dir=/work/tests".toList "acme/widgets".toList),
       .run "repos/acme_gadgets/test/e2e".toList
          (ginkgoArgv "--output-dir=/work/tests".toList "acme/gadgets".toList)] ∧
    lostWorld.stat (testDir "acme/widgets".toList) = .directory ∧
    runTests lostWorld ["acme/widgets".toList, "acme/gadgets".toList] emptyFS =
      ⟨[.logFatal "getwd: no such file or directory".toList],
        .fatal "getwd: no such file or directory".toList, emptyFS⟩ :=
  ⟨rfl, by decide, by decide, by decide, by decide, by decide, rfl⟩

/-- C3 (amended): when `os.Getwd` succeeds, `runTests` returns, and its events
are those of the repositories one after the other in input order (each
repository contributes what a run on it alone produces); the skip lines are
exactly one for each repository for whose test directory `os.Stat` fails with
an error that `os.IsNotExist` accepts, the runs of the test tool exactly one
for each of the other repositories, in input order, among them every
repository whose test directory exists, whatever the exit statuses of the
test tool are. -/
theorem runTests_visits_every_repository (w : World) (repos : List Str) (fs : FileSystem)
    (cwd : Str) (hcwd : w.getwd = .ok cwd) :
    (runTests w repos fs).status = .returned ∧
    (runTests w repos fs).events = (repos.map fun r => (runTests w [r] fs).events).flatten ∧
    (runTests w repos fs).events.filter isToolRun =
      ((repos.filter fun r => !w.statNotExist (testDir r)).map fun r =>
        .run (testDir r) (ginkgoArgv ("--output-dir=".toList ++ cwd ++ "/".toList ++ testsDir) r)) ∧
    (runTests w repos fs).events.filter isSkipLine =
      (repos.filter fun r => w.statNotExist (testDir r)).map skipLine ∧
    (∀ r, w.statNotExist (testDir r) = true ↔ w.stat (testDir r) = .notExist) ∧
    (∀ r ∈ repos, w.stat (testDir r) = .directory →
      Event.run (testDir r) (ginkgoArgv ("--output-dir=".toList ++ cwd ++ "/".toList ++ testsDir) r)
        ∈ (runTests w repos fs).events) := by
  have hev : ∀ l, (runTests w l fs).events =
      (l.map (visit w ("--output-dir=".toList ++ cwd ++ "/".toList ++ testsDir))).flatten := by
    intro l
    simp only [runTests, hcwd]
    exact runTestsLoop_events w _ l fs
  have htool : (runTests w repos fs).events.filter isToolRun =
      ((repos.filter fun r => !w.statNotExist (testDir r)).map fun r =>
        .run (testDir r)
          (ginkgoArgv ("--output-dir=".toList ++ cwd ++ "/".toList ++ testsDir) r)) := by
    rw [hev repos]
    apply filter_flatten_map_visit
    intro r
    rw [filter_isToolRun_visit]
    cases w.statNotExist (testDir r) <;> rfl
  refine ⟨by simp only [runTests, hcwd], ?_, htool, ?_, ?_, ?_⟩
  · rw [hev repos]
    congr 1
    apply List.map_congr_left
    intro r _
    rw [hev [r]]
    simp
  · rw [hev repos]
    apply filter_flatten_map_visit
    intro r
    rw [filter_isSkipLine_visit]
  · intro r
    unfold World.statNotExist
    cases w.stat (testDir r) <;> simp [StatResult.isNotExist]
  · intro r hr hdir
    have hmem : Event.run (testDir r)
        (ginkgoArgv ("--output-dir=".toList ++ cwd ++ "/".toList ++ testsDir) r)
        ∈ (runTests w repos fs).events.filter isToolRun := by
      rw [htool]
      refine List.mem_map.mpr ⟨r, List.mem_filter.mpr ⟨hr, ?_⟩, rfl⟩
      simp [World.statNotExist, hdir, StatResult.isNotExist]
    exact (List.mem_filter.mp hmem).1

/-- C3 (amended) in the demonstration environment: one run of the tool, for
`acme/widgets`, and one skip line, for `acme/gadgets`. -/
theorem runTests_visits_every_repository_witness :
    demoWorld.getwd = .ok "/work".toList ∧
    (runTests demoWorld ["acme/widgets".toList, "acme/gadgets".toList] emptyFS).events.filter
        isSkipLine = [skipLine "acme/gadgets".toList] :=
  ⟨rfl, (runTests_visits_every_repository demoWorld
      ["acme/widgets".toList, "acme/gadgets".toList] emptyFS "/work".toList rfl).2.2.2.1.trans
    (by decide)⟩

/-- C1: when `report.txt` can be created, the template is loaded and no
rendering fails, `generateReport` returns and the report it writes for a
listing is the concatenation, in listing order, of the renderings of the suites
of exactly the entries that are no directories, have a name ending in `.json`
and are read and decoded successfully; hence the report for a listing `A`
followed by `B` is the report for `A` followed by the report for `B`. -/
theorem report_is_concatenation (w : World) (fs : FileSystem) (tpl : Template)
    (A B : List DirEntry)
    (hcreate : w.create reportPath = none)
    (htpl : w.parseFiles "suite.tpl".toList = .ok tpl)
    (hrender : ∀ e ∈ A ++ B, ∀ s, decoded w fs e = some s → (tpl s).2 = none) :
    (generateReport w (fs.withListing (A ++ B))).status = .returned ∧
    reportFile (generateReport w (fs.withListing (A ++ B))).events =
      some (((A ++ B).filterMap (decoded w fs)).map fun s => (tpl s).1).flatten ∧
    ∃ a b, reportFile (generateReport w (fs.withListing A)).events = some a ∧
      reportFile (generateReport w (fs.withListing B)).events = some b ∧
      reportFile (generateReport w (fs.withListing (A ++ B))).events = some (a ++ b) := by
  have key : ∀ l : List DirEntry, (∀ e ∈ l, ∀ s, decoded w fs e = some s → (tpl s).2 = none) →
      (generateReport w (fs.withListing l)).status = .returned ∧
      reportFile (generateReport w (fs.withListing l)).events =
        some ((l.filterMap (decoded w fs)).map fun s => (tpl s).1).flatten := by
    intro l hl
    rw [generateReport_eq w (fs.withListing l) tpl l (withListing_readDir fs l) hcreate htpl,
      generateReportLoop_ok w (fs.withListing l) tpl l hl]
    refine ⟨rfl, ?_⟩
    rw [reportFile_create, entryEvents_withListing, foldl_reportStep_entryEvents]
    simp
  obtain ⟨h1, h2⟩ := key (A ++ B) hrender
  refine ⟨h1, h2, _, _,
    (key A fun e he => hrender e (List.mem_append_left _ he)).2,
    (key B fun e he => hrender e (List.mem_append_right _ he)).2, ?_⟩
  rw [h2]
  simp

/-- C1 in the demonstration environment, for the listing `a.json` followed by
`bad.json` and `b.json`. -/
theorem report_is_concatenation_witness :
    demoWorld.create reportPath = none ∧
    demoWorld.parseFiles "suite.tpl".toList = .ok demoTemplate ∧
    reportFile (generateReport demoWorld (sampleFS.withListing
      ([⟨"a.json".toList, false⟩] ++ [⟨"bad.json".toList, false⟩, ⟨"b.json".toList, false⟩]))).events
      = some "widgets e2e\nwidgets e2e\n".toList :=
  ⟨rfl, rfl,
    (report_is_concatenation demoWorld sampleFS demoTemplate [⟨"a.json".toList, false⟩]
      [⟨"bad.json".toList, false⟩, ⟨"b.json".toList, false⟩] rfl rfl
      (fun _ _ _ _ => rfl)).2.1.trans (by decide)⟩

/-- C2: when `report.txt` can be created and the template is loaded, a listing
in which one `.json` file fails to load (its reading or decoding returns the
error `msg`) and every other entry is a `.json` file that is decoded and
rendered successfully does not stop `generateReport`: it returns, the only line
it prints is the error of the bad file, and the report it writes is the one it
writes for the listing without the bad file, the concatenation of the
renderings of the valid files before and after the bad one. -/
theorem bad_file_is_skipped (w : World) (fs : FileSystem) (tpl : Template)
    (pre post : List DirEntry) (bad : DirEntry) (msg : Str)
    (hcreate : w.create reportPath = none)
    (htpl : w.parseFiles "suite.tpl".toList = .ok tpl)
    (hvalid : ∀ e ∈ pre ++ post, ∃ s, decoded w fs e = some s ∧ (tpl s).2 = none)
    (hbad : loadError w fs bad = some msg) :
    (generateReport w (fs.withListing (pre ++ bad :: post))).status = .returned ∧
    printed (generateReport w (fs.withListing (pre ++ bad :: post))).events
      = [msg ++ "\n".toList] ∧
    reportFile (generateReport w (fs.withListing (pre ++ bad :: post))).events
      = reportFile (generateReport w (fs.withListing (pre ++ post))).events ∧
    reportFile (generateReport w (fs.withListing (pre ++ bad :: post))).events
      = some (((pre ++ post).filterMap (decoded w fs)).map fun s => (tpl s).1).flatten := by
  have hbadnone : decoded w fs bad = none := decoded_of_loadError w fs bad msg hbad
  have hok : ∀ e ∈ pre ++ post, ∀ s, decoded w fs e = some s → (tpl s).2 = none := by
    intro e he s hs
    obtain ⟨s2, h1, h2⟩ := hvalid e he
    rw [h1] at hs
    rw [← Option.some.inj hs]
    exact h2
  have hall : ∀ e ∈ pre ++ bad :: post, ∀ s, decoded w fs e = some s → (tpl s).2 = none := by
    intro e he s hs
    rcases List.mem_append.mp he with h | h
    · exact hok e (List.mem_append_left _ h) s hs
    · rcases List.mem_cons.mp h with h | h
      · rw [h, hbadnone] at hs
        simp at hs
      · exact hok e (List.mem_append_right _ h) s hs
  have hnoerr : ∀ l : List DirEntry, (∀ e ∈ l, e ∈ pre ++ post) →
      (l.filterMap fun e => (loadError w fs e).map fun err => err ++ "\n".toList) = [] := by
    intro l hl
    rw [List.filterMap_eq_nil_iff]
    intro e he
    obtain ⟨s, h1, _⟩ := hvalid e (hl e he)
    rw [loadError_of_decoded w fs e s h1]
    rfl
  have hfm : (pre ++ bad :: post).filterMap (decoded w fs) = (pre ++ post).filterMap (decoded w fs) := by
    rw [List.filterMap_append, List.filterMap_cons_none hbadnone, List.filterMap_append]
  have hgen : ∀ l : List DirEntry, (∀ e ∈ l, ∀ s, decoded w fs e = some s → (tpl s).2 = none) →
      generateReport w (fs.withListing l) =
        ⟨.create reportPath :: (l.map (entryEvents w fs tpl)).flatten, .returned⟩ := by
    intro l hl
    rw [generateReport_eq w (fs.withListing l) tpl l (withListing_readDir fs l) hcreate htpl,
      generateReportLoop_ok w (fs.withListing l) tpl l hl]
    rfl
  have hrep : ∀ l : List DirEntry, reportFile (.create reportPath :: (l.map (entryEvents w fs tpl)).flatten) =
      some ((l.filterMap (decoded w fs)).map fun s => (tpl s).1).flatten := by
    intro l
    rw [reportFile_create, foldl_reportStep_entryEvents]
    simp
  rw [hgen _ hall, hgen _ hok]
  refine ⟨rfl, ?_, ?_, ?_⟩
  · have hp : printed (.create reportPath :: ((pre ++ bad :: post).map (entryEvents w fs tpl)).flatten)
        = printed (((pre ++ bad :: post).map (entryEvents w fs tpl)).flatten) := rfl
    show printed (.create reportPath :: ((pre ++ bad :: post).map (entryEvents w fs tpl)).flatten) = _
    rw [hp, printed_entryEvents, List.filterMap_append, List.filterMap_cons,
      hnoerr pre (fun e he => List.mem_append_left _ he),
      hnoerr post (fun e he => List.mem_append_right _ he), hbad]
    rfl
  · show reportFile _ = reportFile _
    rw [hrep, hrep, hfm]
  · show reportFile _ = _
    rw [hrep, hfm]

/-- C2 in the demonstration environment, for the listing `a.json`, `bad.json`,
`b.json`. -/
theorem bad_file_is_skipped_witness :
    demoWorld.create reportPath = none ∧
    demoWorld.parseFiles "suite.tpl".toList = .ok demoTemplate ∧
    loadError demoWorld sampleFS ⟨"bad.json".toList, false⟩
      = some "unexpected end of JSON input".toList ∧
    printed (generateReport demoWorld (sampleFS.withListing
      ([⟨"a.json".toList, false⟩] ++ ⟨"bad.json".toList, false⟩ :: [⟨"b.json".toList, false⟩]))).events
      = ["unexpected end of JSON input\n".toList] :=
  ⟨rfl, rfl, by decide,
    (bad_file_is_skipped demoWorld sampleFS demoTemplate [⟨"a.json".toList, false⟩]
      [⟨"b.json".toList, false⟩] ⟨"bad.json".toList, false⟩
      "unexpected end of JSON input".toList rfl rfl
      (by
        intro e he
        refine ⟨[demoSuite], ?_, rfl⟩
        simp only [List.cons_append, List.nil_append, List.mem_cons, List.mem_singleton,
          List.not_mem_nil, or_false] at he
        rcases he with rfl | rfl <;> decide)
      (by decide)).2.1.trans (by decide)⟩

/-! ## The whole run -/

theorem main_cases (w : World) (fs : FileSystem) :
    (∃ msg, main w fs = ⟨[], .fatal msg⟩) ∨
    (∃ msg, main w fs = ⟨[.logFatal msg], .fatal msg⟩) ∨
    (∃ b, w.flagParse = none ∧ w.token ≠ [] ∧ w.mkdirAll reposDir = none ∧
      w.mkdirAll testsDir = none ∧ w.stdin = .ok b) := by
  unfold main
  cases hflag : w.flagParse with
  | some err => exact Or.inl ⟨err, rfl⟩
  | none =>
    dsimp only
    by_cases htok : w.token = []
    · rw [if_pos htok]
      exact Or.inr (Or.inl ⟨_, rfl⟩)
    · rw [if_neg htok]
      cases hm1 : w.mkdirAll reposDir with
      | some err => exact Or.inr (Or.inl ⟨err, rfl⟩)
      | none =>
        dsimp only
        cases hm2 : w.mkdirAll testsDir with
        | some err => exact Or.inr (Or.inl ⟨err, rfl⟩)
        | none =>
          dsimp only
          cases hin : w.stdin with
          | error err => exact Or.inr (Or.inl ⟨err, rfl⟩)
          | ok b => exact Or.inr (Or.inr ⟨b, rfl, htok, rfl, rfl, rfl⟩)

theorem main_staged (w : World) (fs : FileSystem) (b : Str)
    (hflag : w.flagParse = none) (htok : w.token ≠ [])
    (hm1 : w.mkdirAll reposDir = none) (hm2 : w.mkdirAll testsDir = none)
    (hin : w.stdin = .ok b) :
    (∀ msg, (acquireAll w (w.order (parseRepos b))).status = .fatal msg →
      main w fs = ⟨(acquireAll w (w.order (parseRepos b))).events, .fatal msg⟩) ∧
    ((acquireAll w (w.order (parseRepos b))).status = .returned →
      (∀ msg, (runTests w (parseRepos b) fs).status = .fatal msg →
        main w fs = ⟨(acquireAll w (w.order (parseRepos b))).events
          ++ (runTests w (parseRepos b) fs).events, .fatal msg⟩) ∧
      ((runTests w (parseRepos b) fs).status = .returned →
        (∀ msg, (generateReport w (runTests w (parseRepos b) fs).fs).status = .fatal msg →
          main w fs = ⟨(acquireAll w (w.order (parseRepos b))).events
            ++ (runTests w (parseRepos b) fs).events
            ++ (generateReport w (runTests w (parseRepos b) fs).fs).events, .fatal msg⟩) ∧
        ((generateReport w (runTests w (parseRepos b) fs).fs).status = .returned →
          main w fs = ⟨(acquireAll w (w.order (parseRepos b))).events
            ++ (runTests w (parseRepos b) fs).events
            ++ (generateReport w (runTests w (parseRepos b) fs).fs).events ++ [allDone],
            .returned⟩))) := by
  have hmain : main w fs =
      match (acquireAll w (w.order (parseRepos b))).status with
      | .fatal err => ⟨(acquireAll w (w.order (parseRepos b))).events, .fatal err⟩
      | .returned =>
        match (runTests w (parseRepos b) fs).status with
        | .fatal err => ⟨(acquireAll w (w.order (parseRepos b))).events
            ++ (runTests w (parseRepos b) fs).events, .fatal err⟩
        | .returned =>
          match (generateReport w (runTests w (parseRepos b) fs).fs).status with
          | .fatal err => ⟨(acquireAll w (w.order (parseRepos b))).events
              ++ (runTests w (parseRepos b) fs).events
              ++ (generateReport w (runTests w (parseRepos b) fs).fs).events, .fatal err⟩
          | .returned => ⟨(acquireAll w (w.order (parseRepos b))).events
              ++ (runTests w (parseRepos b) fs).events
              ++ (generateReport w (runTests w (parseRepos b) fs).fs).events ++ [allDone],
              .returned⟩ := by
    unfold main
    rw [hflag]
    dsimp only
    rw [if_neg htok, hm1]
    dsimp only
    rw [hm2]
    dsimp only
    rw [hin]
  refine ⟨fun msg h => ?_, fun ha => ⟨fun msg h => ?_, fun ht => ⟨fun msg h => ?_, fun hg => ?_⟩⟩⟩
  · rw [hmain, h]
  · rw [hmain, ha]
    dsimp only
    rw [h]
  · rw [hmain, ha]
    dsimp only
    rw [ht]
    dsimp only
    rw [h]
  · rw [hmain, ha]
    dsimp only
    rw [ht]
    dsimp only
    rw [hg]

theorem clone_events_ofAcquisition (w : World) (repo : Str) :
    ∀ ev ∈ (clone w repo).1, ofAcquisition ev = true := by
  unfold clone
  by_cases h : (split repo '/').length ≠ 2
  · simp [h]
  · simp only [h, if_false]
    cases w.reposGet ((split repo '/').getD 0 []) ((split repo '/').getD 1 []) with
    | error err => simp [ofAcquisition]
    | ok r => simp [ofAcquisition]

theorem acquireAll_cons (w : World) (r : Str) (rest : List Str) :
    acquireAll w (r :: rest) =
      match (clone w r).2 with
      | some err => ⟨(clone w r).1 ++ [.logFatal err], .fatal err⟩
      | none => ⟨(clone w r).1 ++ (acquireAll w rest).events, (acquireAll w rest).status⟩ := by
  rw [acquireAll]
  rcases hc : clone w r with ⟨ev, _ | err⟩ <;> rfl

theorem acquireAll_events_ofAcquisition (w : World) (l : List Str) :
    ∀ ev ∈ (acquireAll w l).events, ofAcquisition ev = true := by
  induction l with
  | nil => simp [acquireAll]
  | cons r rest ih =>
    intro ev hev
    rw [acquireAll_cons] at hev
    cases hc : (clone w r).2 with
    | none =>
      rw [hc] at hev
      rcases List.mem_append.mp hev with h | h
      · exact clone_events_ofAcquisition w r ev h
      · exact ih ev h
    | some err =>
      rw [hc] at hev
      rcases List.mem_append.mp hev with h | h
      · exact clone_events_ofAcquisition w r ev h
      · rw [List.mem_singleton.mp h]
        rfl

theorem acquireAll_fatal_of_mem (w : World) (l : List Str) (r : Str) (hr : r ∈ l)
    (herr : (clone w r).2 ≠ none) : ∃ msg, (acquireAll w l).status = .fatal msg := by
  induction l with
  | nil => simp at hr
  | cons x rest ih =>
    rw [acquireAll_cons]
    cases hc : (clone w x).2 with
    | some err => exact ⟨err, rfl⟩
    | none =>
      rcases List.mem_cons.mp hr with h | h
      · rw [h] at herr
        exact absurd hc herr
      · exact ih h

theorem acquireAll_fatal_last (w : World) (l : List Str) (msg : Str)
    (h : (acquireAll w l).status = .fatal msg) :
    ∃ pre, (acquireAll w l).events = pre ++ [.logFatal msg] := by
  induction l with
  | nil => simp [acquireAll] at h
  | cons x rest ih =>
    rw [acquireAll_cons] at h ⊢
    cases hc : (clone w x).2 with
    | some err =>
      rw [hc] at h
      simp only [Status.fatal.injEq] at h
      exact ⟨(clone w x).1, by rw [h]⟩
    | none =>
      rw [hc] at h
      obtain ⟨pre, hpre⟩ := ih h
      exact ⟨(clone w x).1 ++ pre, by simp [hpre]⟩

theorem ofAcquisition_facts (ev : Event) (h : ofAcquisition ev = true) :
    isToolRun ev = false ∧ isSkipLine ev = false ∧ (∀ c, reportStep c ev = c) ∧ ev ≠ allDone := by
  cases ev with
  | stdout text =>
    simp only [ofAcquisition, List.isPrefixOf_iff_prefix] at h
    obtain ⟨t, rfl⟩ := h
    refine ⟨rfl, rfl, fun _ => rfl, ?_⟩
    simp [allDone]
  | logFatal msg => exact ⟨rfl, rfl, fun _ => rfl, by simp [allDone]⟩
  | mustPanic msg => simp [ofAcquisition] at h
  | lookup owner name => exact ⟨rfl, rfl, fun _ => rfl, by simp [allDone]⟩
  | run dir argv =>
    cases argv with
    | nil => simp [ofAcquisition] at h
    | cons cmd rest =>
      simp only [ofAcquisition, Bool.and_eq_true, decide_eq_true_eq] at h
      refine ⟨?_, rfl, fun _ => rfl, by simp [allDone]⟩
      rw [h.2]
      rfl
  | create path => simp [ofAcquisition] at h
  | execute path src text => simp [ofAcquisition] at h

theorem foldl_reportStep_of_untouched (evs : List Event) (c : Option Str)
    (h : ∀ ev ∈ evs, ∀ c, reportStep c ev = c) : evs.foldl reportStep c = c := by
  induction evs generalizing c with
  | nil => rfl
  | cons ev rest ih =>
    rw [List.foldl_cons, h ev (List.mem_cons_self _ _) c]
    exact ih c (fun x hx => h x (List.mem_cons_of_mem _ hx))

theorem ofAcquisition_run (evs : List Event) (h : ∀ ev ∈ evs, ofAcquisition ev = true) :
    evs.filter isToolRun = [] ∧ evs.filter isSkipLine = [] ∧ reportFile evs = none ∧
      allDone ∉ evs := by
  refine ⟨?_, ?_, ?_, ?_⟩
  · rw [List.filter_eq_nil_iff]
    intro ev hev
    simp [(ofAcquisition_facts ev (h ev hev)).1]
  · rw [List.filter_eq_nil_iff]
    intro ev hev
    simp [(ofAcquisition_facts ev (h ev hev)).2.1]
  · exact foldl_reportStep_of_untouched evs none
      (fun ev hev => (ofAcquisition_facts ev (h ev hev)).2.2.1)
  · intro hmem
    exact (ofAcquisition_facts allDone (h allDone hmem)).2.2.2 rfl

/-- C4: when the clone of at least one identifier of the input returns an
error, whatever the order in which the goroutines finish, the run ends
fatally and consists of the start of `main` and of the acquisition only (its
events are none, one `log.Fatal`, or those of the acquisition goroutines up to
the `log.Fatal` of the first failed clone): every event is a lookup, a
`Cloning repository` line, a run of `git` or a `log.Fatal`; the test tool is
never run and no skip line is printed (`runTests` is not executed),
`report.txt` is neither created nor written (`generateReport` is not
executed), and the success message is not printed. -/
theorem acquisition_failure_stops_run (w : World) (fs : FileSystem) (b r : Str)
    (hin : w.stdin = .ok b)
    (hperm : (w.order (parseRepos b)).Perm (parseRepos b))
    (hr : r ∈ parseRepos b) (herr : (clone w r).2 ≠ none) :
    (∃ msg, (main w fs).status = .fatal msg ∧
      ((main w fs).events = [] ∨ (main w fs).events = [.logFatal msg] ∨
        ((main w fs).events = (acquireAll w (w.order (parseRepos b))).events ∧
          (acquireAll w (w.order (parseRepos b))).status = .fatal msg))) ∧
    (∀ ev ∈ (main w fs).events, ofAcquisition ev = true) ∧
    (main w fs).events.filter isToolRun = [] ∧
    (main w fs).events.filter isSkipLine = [] ∧
    reportFile (main w fs).events = none ∧
    allDone ∉ (main w fs).events := by
  have h1 : ∃ msg, (main w fs).status = .fatal msg ∧
      ((main w fs).events = [] ∨ (main w fs).events = [.logFatal msg] ∨
        ((main w fs).events = (acquireAll w (w.order (parseRepos b))).events ∧
          (acquireAll w (w.order (parseRepos b))).status = .fatal msg)) := by
    rcases main_cases w fs with ⟨msg, h⟩ | ⟨msg, h⟩ | ⟨b2, hflag, htok, hm1, hm2, hin2⟩
    · exact ⟨msg, by rw [h], Or.inl (by rw [h])⟩
    · exact ⟨msg, by rw [h], Or.inr (Or.inl (by rw [h]))⟩
    · have hb : b2 = b := by
        rw [hin] at hin2
        exact (Except.ok.inj hin2).symm
      subst hb
      obtain ⟨msg, hmsg⟩ := acquireAll_fatal_of_mem w (w.order (parseRepos b2)) r
        (hperm.mem_iff.mpr hr) herr
      have hm := (main_staged w fs b2 hflag htok hm1 hm2 hin).1 msg hmsg
      exact ⟨msg, by rw [hm], Or.inr (Or.inr ⟨by rw [hm], hmsg⟩)⟩
  have h2 : ∀ ev ∈ (main w fs).events, ofAcquisition ev = true := by
    obtain ⟨msg, _, h | h | h⟩ := h1
    · rw [h]
      simp
    · rw [h]
      intro ev hev
      rw [List.mem_singleton.mp hev]
      rfl
    · rw [h.1]
      exact acquireAll_events_ofAcquisition w _
  exact ⟨h1, h2, ofAcquisition_run _ h2⟩

/-- C4 in an environment where `acme/gadgets` cannot be resolved and the
goroutines finish in reverse order. -/
theorem acquisition_failure_stops_run_witness :
    offlineWorld.stdin = .ok "acme/widgets\nacme/gadgets".toList ∧
    "acme/gadgets".toList ∈ parseRepos "acme/widgets\nacme/gadgets".toList ∧
    (clone offlineWorld "acme/gadgets".toList).2 ≠ none ∧
    reportFile (main offlineWorld emptyFS).events = none ∧
    allDone ∉ (main offlineWorld emptyFS).events :=
  ⟨rfl, by decide, by decide,
    (acquisition_failure_stops_run offlineWorld emptyFS "acme/widgets\nacme/gadgets".toList
      "acme/gadgets".toList rfl (List.reverse_perm _) (by decide) (by decide)).2.2.2.2⟩

theorem generateReportLoop_cons_fail (w : World) (fs : FileSystem) (tpl : Template)
    (e : DirEntry) (rest : List DirEntry) (s : List suite) (text err : Str)
    (hd : decoded w fs e = some s) (ht : tpl s = (text, some err)) :
    generateReportLoop w fs tpl (e :: rest) =
      ⟨[.execute reportPath (testsDir ++ "/".toList ++ e.Name) text, .logFatal err],
        .fatal err⟩ := by
  rw [generateReportLoop_cons, hd]
  dsimp only
  rw [ht]

theorem generateReportLoop_returned (w : World) (fs : FileSystem) (tpl : Template)
    (l : List DirEntry) (h : (generateReportLoop w fs tpl l).status = .returned) :
    ∀ e ∈ l, ∀ s, decoded w fs e = some s → (tpl s).2 = none := by
  induction l with
  | nil => simp
  | cons x rest ih =>
    have hx : ∀ s, decoded w fs x = some s → (tpl s).2 = none := by
      intro s hs
      rcases ht : tpl s with ⟨text, _ | err⟩
      · rfl
      · rw [generateReportLoop_cons_fail w fs tpl x rest s text err hs ht] at h
        simp at h
    rw [generateReportLoop_cons_ok w fs tpl x rest hx] at h
    intro e he
    rcases List.mem_cons.mp he with rfl | he
    · exact hx
    · exact ih h e he

theorem generateReportLoop_fatal_last (w : World) (fs : FileSystem) (tpl : Template)
    (l : List DirEntry) (msg : Str) (h : (generateReportLoop w fs tpl l).status = .fatal msg) :
    ∃ pre, (generateReportLoop w fs tpl l).events = pre ++ [.logFatal msg] := by
  induction l with
  | nil => simp [generateReportLoop] at h
  | cons x rest ih =>
    by_cases hx : ∀ s, decoded w fs x = some s → (tpl s).2 = none
    · rw [generateReportLoop_cons_ok w fs tpl x rest hx] at h ⊢
      obtain ⟨pre, hpre⟩ := ih h
      exact ⟨entryEvents w fs tpl x ++ pre, by simp [hpre]⟩
    · push_neg at hx
      obtain ⟨s, hs, hne⟩ := hx
      rcases ht : tpl s with ⟨text, _ | err⟩
      · rw [ht] at hne
        exact absurd rfl hne
      · rw [generateReportLoop_cons_fail w fs tpl x rest s text err hs ht] at h ⊢
        simp only [Status.fatal.injEq] at h
        exact ⟨[.execute reportPath (testsDir ++ "/".toList ++ x.Name) text], by rw [h]; rfl⟩

theorem generateReport_fatal_last (w : World) (fs : FileSystem) (msg : Str)
    (h : (generateReport w fs).status = .fatal msg) :
    ∃ pre ev, (generateReport w fs).events = pre ++ [ev] ∧ isFatalEvent ev = true := by
  unfold generateReport at h ⊢
  cases hdir : fs.readDir testsDir with
  | error err => exact ⟨[], .logFatal err, rfl, rfl⟩
  | ok l =>
    rw [hdir] at h
    dsimp only at h ⊢
    cases hc : w.create reportPath with
    | some err => exact ⟨[], .logFatal err, rfl, rfl⟩
    | none =>
      rw [hc] at h
      dsimp only at h ⊢
      cases hp : w.parseFiles "suite.tpl".toList with
      | error err => exact ⟨[.create reportPath], .mustPanic err, rfl, rfl⟩
      | ok tpl =>
        rw [hp] at h
        dsimp only at h ⊢
        obtain ⟨pre, hpre⟩ := generateReportLoop_fatal_last w fs tpl l msg h
        exact ⟨.create reportPath :: pre, .logFatal msg, by rw [hpre]; rfl, rfl⟩

theorem generateReport_returned (w : World) (fs : FileSystem)
    (h : (generateReport w fs).status = .returned) :
    ∃ tpl l, fs.readDir testsDir = .ok l ∧ w.create reportPath = none ∧
      w.parseFiles "suite.tpl".toList = .ok tpl ∧
      (generateReport w fs).events = .create reportPath :: (l.map (entryEvents w fs tpl)).flatten := by
  have h0 := h
  unfold generateReport at h0
  cases hdir : fs.readDir testsDir with
  | error err =>
    rw [hdir] at h0
    simp [ifErr] at h0
  | ok l =>
    rw [hdir] at h0
    dsimp only at h0
    cases hc : w.create reportPath with
    | some err =>
      rw [hc] at h0
      simp [ifErr] at h0
    | none =>
      rw [hc] at h0
      dsimp only at h0
      cases hp : w.parseFiles "suite.tpl".toList with
      | error err =>
        rw [hp] at h0
        simp at h0
      | ok tpl =>
        have he := generateReport_eq w fs tpl l hdir hc hp
        rw [he] at h
        have hok := generateReportLoop_returned w fs tpl l h
        refine ⟨tpl, l, rfl, rfl, rfl, ?_⟩
        rw [he, generateReportLoop_ok w fs tpl l hok]

theorem visit_event_cases (w : World) (outputDir r : Str) (ev : Event)
    (h : ev ∈ visit w outputDir r) :
    (w.statNotExist (testDir r) = true ∧ ev = skipLine r) ∨
    (w.statNotExist (testDir r) = false ∧
      (ev = .stdout ("Running tests for ".toList ++ r ++ "...\n".toList) ∨
        ev = .run (testDir r) (ginkgoArgv outputDir r) ∨
        ∃ err, ev = .stdout ("[ERROR] Ginkgo test failed for ".toList ++ r ++ ": ".toList ++ err
          ++ "\n".toList))) := by
  unfold visit at h
  by_cases hs : w.statNotExist (testDir r) = true
  · rw [if_pos hs] at h
    exact Or.inl ⟨hs, List.mem_singleton.mp h⟩
  · rw [if_neg hs] at h
    refine Or.inr ⟨by simpa using hs, ?_⟩
    rcases List.mem_cons.mp h with h | h
    · exact Or.inl h
    · rcases List.mem_cons.mp h with h | h
      · exact Or.inr (Or.inl h)
      · cases hrun : w.run (testDir r) (ginkgoArgv outputDir r) with
        | none =>
          rw [hrun] at h
          simp at h
        | some err =>
          rw [hrun] at h
          exact Or.inr (Or.inr ⟨err, List.mem_singleton.mp h⟩)

theorem runTests_event_cases (w : World) (repos : List Str) (fs : FileSystem) (ev : Event)
    (h : ev ∈ (runTests w repos fs).events) :
    (∃ msg, ev = .logFatal msg) ∨ ∃ r ∈ repos, ∃ outputDir, ev ∈ visit w outputDir r := by
  unfold runTests at h
  cases hcwd : w.getwd with
  | error err =>
    rw [hcwd] at h
    exact Or.inl ⟨err, List.mem_singleton.mp h⟩
  | ok cwd =>
    rw [hcwd] at h
    dsimp only at h
    rw [runTestsLoop_events] at h
    obtain ⟨evs, hevs, hmem⟩ := List.mem_flatten.mp h
    obtain ⟨r, hr, rfl⟩ := List.mem_map.mp hevs
    exact Or.inr ⟨r, hr, _, hmem⟩

theorem runTests_events_untouched (w : World) (repos : List Str) (fs : FileSystem) :
    ∀ ev ∈ (runTests w repos fs).events, ∀ c, reportStep c ev = c := by
  intro ev hev c
  rcases runTests_event_cases w repos fs ev hev with ⟨msg, rfl⟩ | ⟨r, _, out, hmem⟩
  · rfl
  · rcases visit_event_cases w out r ev hmem with ⟨_, rfl⟩ | ⟨_, rfl | rfl | ⟨err, rfl⟩⟩ <;> rfl

theorem runTests_fatal (w : World) (repos : List Str) (fs : FileSystem) (msg : Str)
    (h : (runTests w repos fs).status = .fatal msg) :
    (runTests w repos fs).events = [.logFatal msg] := by
  unfold runTests at h ⊢
  cases hcwd : w.getwd with
  | error err =>
    rw [hcwd] at h
    simp only [ifErr, Status.fatal.injEq] at h
    rw [h]
    rfl
  | ok cwd =>
    rw [hcwd] at h
    simp at h

theorem main_fatal_last (w : World) (fs : FileSystem) (msg : Str)
    (h : (main w fs).status = .fatal msg) :
    (main w fs).events = [] ∨
      ∃ pre ev, (main w fs).events = pre ++ [ev] ∧ isFatalEvent ev = true := by
  rcases main_cases w fs with ⟨m, hm⟩ | ⟨m, hm⟩ | ⟨b, hflag, htok, hm1, hm2, hin⟩
  · exact Or.inl (by rw [hm])
  · exact Or.inr ⟨[], .logFatal m, by rw [hm]; rfl, rfl⟩
  · obtain ⟨ha, hrest⟩ := main_staged w fs b hflag htok hm1 hm2 hin
    right
    cases hsa : (acquireAll w (w.order (parseRepos b))).status with
    | fatal m =>
      obtain ⟨pre, hpre⟩ := acquireAll_fatal_last w _ m hsa
      exact ⟨pre, .logFatal m, by rw [ha m hsa, hpre], rfl⟩
    | returned =>
      obtain ⟨ht, hrest⟩ := hrest hsa
      cases hst : (runTests w (parseRepos b) fs).status with
      | fatal m =>
        refine ⟨(acquireAll w (w.order (parseRepos b))).events, .logFatal m, ?_, rfl⟩
        rw [ht m hst, runTests_fatal w _ fs m hst]
      | returned =>
        obtain ⟨hg, hdone⟩ := hrest hst
        cases hsg : (generateReport w (runTests w (parseRepos b) fs).fs).status with
        | fatal m =>
          obtain ⟨pre, ev, hpre, hev⟩ := generateReport_fatal_last w _ m hsg
          refine ⟨(acquireAll w (w.order (parseRepos b))).events
            ++ (runTests w (parseRepos b) fs).events ++ pre, ev, ?_, hev⟩
          rw [hg m hsg, hpre]
          simp
        | returned =>
          rw [hdone hsg] at h
          simp at h

theorem main_returned (w : World) (fs : FileSystem) (h : (main w fs).status = .returned) :
    ∃ b, w.stdin = .ok b ∧
      (acquireAll w (w.order (parseRepos b))).status = .returned ∧
      (runTests w (parseRepos b) fs).status = .returned ∧
      (generateReport w (runTests w (parseRepos b) fs).fs).status = .returned ∧
      (main w fs).events = (acquireAll w (w.order (parseRepos b))).events
        ++ (runTests w (parseRepos b) fs).events
        ++ (generateReport w (runTests w (parseRepos b) fs).fs).events ++ [allDone] := by
  rcases main_cases w fs with ⟨m, hm⟩ | ⟨m, hm⟩ | ⟨b, hflag, htok, hm1, hm2, hin⟩
  · rw [hm] at h
    simp at h
  · rw [hm] at h
    simp at h
  · obtain ⟨ha, hrest⟩ := main_staged w fs b hflag htok hm1 hm2 hin
    cases hsa : (acquireAll w (w.order (parseRepos b))).status with
    | fatal m =>
      rw [ha m hsa] at h
      simp at h
    | returned =>
      obtain ⟨ht, hrest⟩ := hrest hsa
      cases hst : (runTests w (parseRepos b) fs).status with
      | fatal m =>
        rw [ht m hst] at h
        simp at h
      | returned =>
        obtain ⟨hg, hdone⟩ := hrest hst
        cases hsg : (generateReport w (runTests w (parseRepos b) fs).fs).status with
        | fatal m =>
          rw [hg m hsg] at h
          simp at h
        | returned => exact ⟨b, hin, hsa, hst, hsg, by rw [hdone hsg]⟩

theorem reportFile_main_returned (w : World) (fs : FileSystem) (b : Str) (tpl : Template)
    (l : List DirEntry)
    (hev : (main w fs).events = (acquireAll w (w.order (parseRepos b))).events
      ++ (runTests w (parseRepos b) fs).events
      ++ (generateReport w (runTests w (parseRepos b) fs).fs).events ++ [allDone])
    (hg : (generateReport w (runTests w (parseRepos b) fs).fs).events =
      .create reportPath ::
        (l.map (entryEvents w (runTests w (parseRepos b) fs).fs tpl)).flatten) :
    reportFile (main w fs).events =
      some ((l.filterMap (decoded w (runTests w (parseRepos b) fs).fs)).map
        fun s => (tpl s).1).flatten := by
  rw [hev, hg]
  unfold reportFile
  rw [List.foldl_append, List.foldl_append, List.foldl_append,
    foldl_reportStep_of_untouched _ none
      (fun ev h => (ofAcquisition_facts ev (acquireAll_events_ofAcquisition w _ ev h)).2.2.1),
    foldl_reportStep_of_untouched _ none (runTests_events_untouched w _ fs)]
  have hc := reportFile_create
    ((l.map (entryEvents w (runTests w (parseRepos b) fs).fs tpl)).flatten)
  unfold reportFile at hc
  rw [hc, foldl_reportStep_entryEvents]
  simp [allDone, reportStep]

/-- C7: `generateReport` ends the process when the listing of the `tests`
directory, the creation of `report.txt`, the loading of the template or the
rendering of a decoded file fails, in the last case right after the failed
rendering, with nothing of the later entries; a failure of `generateReport`
ends `main` without the success message; the success message is the last
event of `main` exactly when `main` returns, and then `report.txt` holds the
renderings of all the `.json` result files that were decoded successfully, in
listing order. -/
theorem success_message_follows_report (w : World) (fs : FileSystem) :
    (∀ err, fs.readDir testsDir = .error err →
      generateReport w fs = ⟨[.logFatal err], .fatal err⟩) ∧
    (∀ l err, fs.readDir testsDir = .ok l → w.create reportPath = some err →
      generateReport w fs = ⟨[.logFatal err], .fatal err⟩) ∧
    (∀ l err, fs.readDir testsDir = .ok l → w.create reportPath = none →
      w.parseFiles "suite.tpl".toList = .error err →
      generateReport w fs = ⟨[.create reportPath, .mustPanic err], .fatal err⟩) ∧
    (∀ tpl pre e post s text err, fs.readDir testsDir = .ok (pre ++ e :: post) →
      w.create reportPath = none → w.parseFiles "suite.tpl".toList = .ok tpl →
      (∀ x ∈ pre, ∀ sx, decoded w fs x = some sx → (tpl sx).2 = none) →
      decoded w fs e = some s → tpl s = (text, some err) →
      generateReport w fs =
        ⟨.create reportPath :: (pre.map (entryEvents w fs tpl)).flatten ++
          [.execute reportPath (testsDir ++ "/".toList ++ e.Name) text, .logFatal err],
          .fatal err⟩) ∧
    (∀ b msg, w.flagParse = none → w.token ≠ [] → w.mkdirAll reposDir = none →
      w.mkdirAll testsDir = none → w.stdin = .ok b →
      (acquireAll w (w.order (parseRepos b))).status = .returned →
      (runTests w (parseRepos b) fs).status = .returned →
      (generateReport w (runTests w (parseRepos b) fs).fs).status = .fatal msg →
      main w fs = ⟨(acquireAll w (w.order (parseRepos b))).events
        ++ (runTests w (parseRepos b) fs).events
        ++ (generateReport w (runTests w (parseRepos b) fs).fs).events, .fatal msg⟩) ∧
    ((main w fs).events.getLast? = some allDone ↔ (main w fs).status = .returned) ∧
    ((main w fs).status = .returned →
      ∃ b tpl l, w.stdin = .ok b ∧ w.parseFiles "suite.tpl".toList = .ok tpl ∧
        (runTests w (parseRepos b) fs).fs.readDir testsDir = .ok l ∧
        reportFile (main w fs).events =
          some ((l.filterMap (decoded w (runTests w (parseRepos b) fs).fs)).map
            fun s => (tpl s).1).flatten) := by
  refine ⟨?_, ?_, ?_, ?_, ?_, ?_, ?_⟩
  · intro err h
    unfold generateReport
    rw [h]
    rfl
  · intro l err h hc
    unfold generateReport
    rw [h]
    dsimp only
    rw [hc]
    rfl
  · intro l err h hc hp
    unfold generateReport
    rw [h]
    dsimp only
    rw [hc]
    dsimp only
    rw [hp]
  · intro tpl pre e post s text err h hc hp hpre hd ht
    rw [generateReport_eq w fs tpl _ h hc hp, generateReportLoop_append w fs tpl pre _ hpre,
      generateReportLoop_cons_fail w fs tpl e post s text err hd ht]
    simp
  · intro b msg hflag htok hm1 hm2 hin ha ht hg
    exact ((main_staged w fs b hflag htok hm1 hm2 hin).2 ha).2 ht |>.1 msg hg
  · constructor
    · intro hlast
      cases hs : (main w fs).status with
      | returned => rfl
      | fatal msg =>
        rcases main_fatal_last w fs msg hs with h | ⟨pre, ev, h, hev⟩
        · rw [h] at hlast
          simp at hlast
        · rw [h, List.getLast?_append] at hlast
          have he : some ev = some allDone := hlast
          rw [Option.some.inj he] at hev
          simp [allDone, isFatalEvent] at hev
    · intro hs
      obtain ⟨b, _, _, _, _, hev⟩ := main_returned w fs hs
      rw [hev]
      simp
  · intro hs
    obtain ⟨b, hin, _, _, hg, hev⟩ := main_returned w fs hs
    obtain ⟨tpl, l, hdir, _, hp, hge⟩ := generateReport_returned w _ hg
    exact ⟨b, tpl, l, hin, hp, hdir, reportFile_main_returned w fs b tpl l hev hge⟩

/-- C7 in the demonstration environment, where the run returns and ends with
the success message, and with a template whose execution fails, where
`generateReport` stops at the first rendering. -/
theorem success_message_follows_report_witness :
    (main demoWorld emptyFS).status = .returned ∧
    (main demoWorld emptyFS).events.getLast? = some allDone ∧
    generateReport brokenWorld sampleFS =
      ⟨[.create reportPath, .execute reportPath "tests/a.json".toList "!".toList,
        .logFatal "template: suite.tpl: executing".toList],
        .fatal "template: suite.tpl: executing".toList⟩ :=
  ⟨by decide,
    (success_message_follows_report demoWorld emptyFS).2.2.2.2.2.1.mpr (by decide),
    ((success_message_follows_report brokenWorld sampleFS).2.2.2.1 brokenTemplate []
      ⟨"a.json".toList, false⟩ [⟨"bad.json".toList, false⟩, ⟨"b.json".toList, false⟩]
      [demoSuite] "!".toList "template: suite.tpl: executing".toList
      rfl rfl rfl (by simp) (by decide) rfl).trans (by decide)⟩

/-! ## Repositories without a test directory -/

end SreOperators
